import Mathlib

/-!
# Pose pipeline of the opentrack tracker (`opentrack/tracker.cpp`)

A shallow embedding of `Tracker::map`, `rmat_to_euler`, `euler_to_rmat`,
`Tracker::t_compensate` and `Tracker::logic`.

* `double` is an ordered field `α`; the theorems about angles take `α := ℝ`, so that they
  speak of exact real arithmetic, without rounding, infinities or NaN.
* The `<cmath>` functions are a record `Libm α`; `realLibm` is their real-number reading.
* Mutable members of `Tracker` are fields of a record that `logic` maps to their new values.
* A loop whose iterations touch one channel each is a function of the channel.
-/

namespace Opentrack

/-! ## Collaborators that are not part of `tracker.cpp` -/

/-- The `<cmath>` functions called by `tracker.cpp`. The arctangent is called on a quotient
only, `atan(a / b)`, and the quotient of doubles is infinite or NaN where `b` is zero: the two
are one operation here, `atan_div a b`, so that no value is given to a quotient by zero. -/
structure Libm (α : Type) where
  /-- The function `sin` -/
  sin : α → α
  /-- The function `cos` -/
  cos : α → α
  /-- The function `asin` -/
  asin : α → α
  /-- The expression `atan(a / b)`, called as `atan_div a b` -/
  atan_div : α → α → α
  /-- The function `atan2`, called as `atan2 y x` -/
  atan2 : α → α → α

/-- What `atan(a / b)` is taken to be at `b = 0`, as a function of `a`. On doubles it is
`±π/2` or NaN, by the sign of `a` and of the zero, which a real number does not have: the
model fixes no value, and nothing can be proved of this one. -/
noncomputable def atanDivZero : ℝ → ℝ :=
  Classical.arbitrary (ℝ → ℝ)

/-- The `<cmath>` functions over the real numbers. `atan2 y x` is the argument of `x + y i`,
which lies in `(-π, π]` and is `0` at the origin. `asin` agrees with the C function on
`[-1, 1]`, the only range `rmat_to_euler` calls it on. `atan_div a b` is the arctangent of
the quotient where `b` is not zero, and `atanDivZero a`, of which nothing is known, where it
is. -/
noncomputable def realLibm : Libm ℝ where
  sin := Real.sin
  cos := Real.cos
  asin := Real.arcsin
  atan_div := fun a b => if b = 0 then atanDivZero a else Real.arctan (a / b)
  atan2 := fun y x => Complex.arg ((x : ℂ) + (y : ℂ) * Complex.I)

/-- Modelled from the spec: the matrix class template `dmat<h, w>` (header `simple-mat.hpp`) is
not among the sources. It is the `h × w` matrix of the spec (a "3×3 rotation matrix"):
`R(j, i)` is row `j`, column `i` (the spec writes `R[0][2]`), `*` is the matrix product, `t()`
the transpose and `eye()` the identity. -/
abbrev dmat (h w : ℕ) (α : Type) := Matrix (Fin h) (Fin w) α

/-- Modelled from the spec: the class `Pose` (header `pose.hpp`) is not among the sources. It
holds "six ordered scalar fields, indices {X, Y, Z, Yaw, Pitch, Roll}". -/
abbrev Pose (α : Type) := Fin 6 → α

/-- The index `Yaw` of the enumeration of axes: the rotations start at channel 3. -/
def Yaw : ℕ := 3

/-- The pointer `&value[Yaw]`: the three rotation channels of a pose. -/
def rotPtr {α : Type} (value : Pose α) : Fin 3 → α :=
  fun i => value ⟨Yaw + i.val, by have := i.isLt; unfold Yaw; omega⟩

variable {α : Type} [LinearOrderedField α]

/-! ## `rmat_to_euler` and `euler_to_rmat` -/

/-- The constant `pi` that `tracker.cpp` declares three times. -/
def pi : α := 3.141592653

/-- The constant `r2d` of `logic`. -/
def r2d : α := 180 / pi

/-- Modelled from the spec: the constructor `dmat<3,3>(const double*)` is not among the
sources, and they do not show in which order it reads its array. The spec fixes the order:
`matrixToAngles` is the "inverse of the above" `anglesToMatrix`, and "at `pitch = 90°`
(within the defined band)" the band is the one on `R[0][2]`. Both hold only when the array is
read column by column, `R(j, i) = mem[3 * i + j]`, which puts `-sin(pitch)`, the seventh
entry of the array that `euler_to_rmat` fills, at `R(0, 2)`. -/
def dmat.ofArray (mem : Fin 9 → α) : dmat 3 3 α :=
  fun j i => mem ⟨3 * i.val + j.val, by have := i.isLt; have := j.isLt; omega⟩

/-- The function `rmat_to_euler` (lines 53-72): radians `(yaw, pitch, roll)` of a matrix. -/
def rmat_to_euler (L : Libm α) (R : dmat 3 3 α) : dmat 3 1 α :=
  let up : α := 90 * pi / 180
  let bound : α := 1 - 2e-4
  if R 0 2 > bound then
    let roll := L.atan_div (R 1 0) (R 2 0)
    !![0; up; roll]
  else if R 0 2 < -bound then
    let roll := L.atan_div (R 1 0) (R 2 0)
    !![0; -up; roll]
  else
    let pitch := L.asin (-R 0 2)
    let roll := L.atan2 (R 1 2) (R 2 2)
    let yaw := L.atan2 (R 0 1) (R 0 0)
    !![yaw; pitch; roll]

/-- The function `euler_to_rmat` (lines 75-105): the matrix of Tait-Bryan angles in degrees,
built from the array `foo`. -/
def euler_to_rmat (L : Libm α) (input : Fin 3 → α) : dmat 3 3 α :=
  let H := input 0 * pi / 180
  let P := input 1 * pi / 180
  let B := input 2 * pi / 180
  let c1 := L.cos H
  let s1 := L.sin H
  let c2 := L.cos P
  let s2 := L.sin P
  let c3 := L.cos B
  let s3 := L.sin B
  let foo : Fin 9 → α :=
    ![c1 * c2, c1 * s2 * s3 - c3 * s1, s1 * s3 + c1 * c3 * s2,
      c2 * s1, c1 * c3 + s1 * s2 * s3, c3 * s1 * s2 - c1 * s3,
      -s2, c2 * s3, c2 * c3]
  dmat.ofArray foo

/-! ## `Tracker::map` -/

/-- Modelled from the spec: the response-curve class behind `Mapping::curve` and
`Mapping::curveAlt` is not among the sources. A curve is "scalar→scalar"; whether it is marked
active is "observable by the curve implementation". -/
structure Map (α : Type) where
  /-- The method `getValue` -/
  getValue : α → α
  /-- The flag that `setTrackingActive` sets -/
  trackingActive : Bool

/-- The method `setTrackingActive` of a curve. -/
def Map.setTrackingActive (c : Map α) (b : Bool) : Map α :=
  { c with trackingActive := b }

/-- The options `axis.opts` of one channel: `invert`, `altp`, `zero` and `src`. -/
structure axis_opts (α : Type) where
  /-- The option `invert` -/
  invert : Bool
  /-- The option `altp` -/
  altp : Bool
  /-- The option `zero` -/
  zero : α
  /-- The option `src` -/
  src : ℤ

/-- The class `Mapping`: the options and the two curves of one channel. -/
structure Mapping (α : Type) where
  /-- The member `opts` -/
  opts : axis_opts α
  /-- The member `curve` -/
  curve : Map α
  /-- The member `curveAlt` -/
  curveAlt : Map α

/-- The method `Tracker::map` (lines 43-50): the value returned and `axis` after the call. -/
def Tracker.map (pos : α) (invertp : Bool) (axis : Mapping α) : α × Mapping α :=
  let altp : Bool := (decide (pos < 0) == !invertp) && axis.opts.altp
  let axis1 : Mapping α := { axis with curve := axis.curve.setTrackingActive (!altp) }
  let axis2 : Mapping α := { axis1 with curveAlt := axis1.curveAlt.setTrackingActive altp }
  let fc : Map α := if altp then axis2.curveAlt else axis2.curve
  (fc.getValue pos + axis2.opts.zero, axis2)

/-! ## `Tracker::t_compensate` -/

/-- Memory holding doubles, addressed by element. A `double*` is an address. -/
abbrev Mem (α : Type) := ℕ → α

/-- The store `p[0] = v` through a pointer `p`. -/
def Mem.write (mem : Mem α) (p : ℕ) (v : α) : Mem α :=
  fun q => if q = p then v else mem q

/-- A pose laid out at address `0`. -/
def Pose.toMem (value : Pose α) : Mem α :=
  fun q => if h : q < 6 then value ⟨q, h⟩ else 0

/-- The pose found at address `0`. -/
def Pose.ofMem (mem : Mem α) : Pose α :=
  fun i => mem i.val

/-- The method `Tracker::t_compensate` (lines 107-118). `xyz` and `output` are pointers into
`mem` and may be equal; the result is the memory after the three stores. -/
def Tracker.t_compensate (rmat : dmat 3 3 α) (mem : Mem α) (xyz output : ℕ) (rz : Bool) :
    Mem α :=
  let tvec : dmat 3 1 α := !![mem (xyz + 2); -mem (xyz + 0); -mem (xyz + 1)]
  let ret : dmat 3 1 α := rmat * tvec
  let mem1 : Mem α :=
    if !rz then mem.write (output + 2) (ret 0 0)
    else mem.write (output + 2) (mem (xyz + 2))
  let mem2 : Mem α := mem1.write (output + 1) (-ret 2 0)
  mem2.write (output + 0) (-ret 1 0)

/-! ## `Tracker::logic` -/

/-- The two settings of `main_settings` that `logic` reads. -/
structure main_settings where
  /-- The setting `tcomp_p` -/
  tcomp_p : Bool
  /-- The setting `tcomp_tz` -/
  tcomp_tz : Bool

/-- The members of `Tracker` that `logic` and `run` touch. `pFilter` is the optional filter,
"a pure transform from the caller's perspective"; `sent` lists the poses handed to
`libs.pProtocol->pose`, oldest first. -/
structure Tracker (α : Type) where
  /-- The member `s` -/
  s : main_settings
  /-- The member `m`, indexed by channel -/
  m : Fin 6 → Mapping α
  /-- The member `newpose` -/
  newpose : Pose α
  /-- The member `centerp` -/
  centerp : Bool
  /-- The member `enabledp` -/
  enabledp : Bool
  /-- The member `zero_` -/
  zero_ : Bool
  /-- The member `should_quit` -/
  should_quit : Bool
  /-- The member `libs.pFilter`, `none` for a null pointer -/
  pFilter : Option (Pose α → Pose α)
  /-- The poses received by `libs.pProtocol` -/
  sent : List (Pose α)
  /-- The member `r_b` -/
  r_b : dmat 3 3 α
  /-- The member `t_b` -/
  t_b : Fin 3 → α
  /-- The member `output_pose` -/
  output_pose : Pose α
  /-- The member `raw_6dof` -/
  raw_6dof : Pose α

/-- The constructor `Tracker::Tracker` (lines 24-35), for given mappings, settings and
filter. The members it does not initialise start at zero. -/
def Tracker.init (s : main_settings) (m : Fin 6 → Mapping α)
    (pFilter : Option (Pose α → Pose α)) : Tracker α where
  s := s
  m := m
  newpose := 0
  centerp := false
  enabledp := true
  zero_ := false
  should_quit := false
  pFilter := pFilter
  sent := []
  r_b := 1
  t_b := ![0, 0, 0]
  output_pose := 0
  raw_6dof := 0

/-- Lines 122-129: the array `inverts`. -/
def Tracker.inverts (t : Tracker α) : Fin 6 → Bool :=
  fun i => (t.m i).opts.invert

/-- Lines 134-151: the poses `value` and `raw` once the sample or, with `zero_` set, the
stored reference has been loaded. -/
def Tracker.load (L : Libm α) (t : Tracker α) : Pose α × Pose α :=
  if !t.zero_ then
    (fun i => t.newpose i, fun i => t.newpose i)
  else
    let mat := rmat_to_euler L t.r_b
    let p : Pose α := fun i =>
      if h : i.val < 3 then t.t_b ⟨i.val, h⟩
      else mat ⟨i.val - 3, by have := i.isLt; omega⟩ 0 * r2d
    (p, p)

/-- Lines 153-159: a pending centre request is served from `value`. -/
def Tracker.center (L : Libm α) (t : Tracker α) (value : Pose α) : Tracker α :=
  if t.centerp then
    { t with
      centerp := false
      t_b := fun i => value ⟨i.val, by have := i.isLt; omega⟩
      r_b := euler_to_rmat L (rotPtr value) }
  else t

/-- Lines 161-170: `value` relative to the reference `r_b`, `t_b`. -/
def Tracker.delta (L : Libm α) (t : Tracker α) (value : Pose α) : Pose α :=
  let rmat : dmat 3 3 α := euler_to_rmat L (rotPtr value)
  let m_ : dmat 3 3 α := rmat * t.r_b.transpose
  let euler : dmat 3 1 α := rmat_to_euler L m_
  fun i =>
    if h : i.val < 3 then value i - t.t_b ⟨i.val, h⟩
    else euler ⟨i.val - 3, by have := i.isLt; omega⟩ 0 * r2d

/-- Lines 172-173: `value` after the loop over `map`, each channel with its own mapping. -/
def mapLoop (m : Fin 6 → Mapping α) (inverts : Fin 6 → Bool) (value : Pose α) : Pose α :=
  fun i => (Tracker.map (value i) (inverts i) (m i)).1

/-- Lines 172-173: the mappings after the loop over `map`. -/
def mapLoopAxes (m : Fin 6 → Mapping α) (inverts : Fin 6 → Bool) (value : Pose α) :
    Fin 6 → Mapping α :=
  fun i => (Tracker.map (value i) (inverts i) (m i)).2

/-- Lines 175-180: `value` after the filter, if there is one. -/
def filterStage (pFilter : Option (Pose α → Pose α)) (value : Pose α) : Pose α :=
  match pFilter with
  | some filter => filter value
  | none => value

/-- Lines 183-184: `value` after the sign flip of the inverted channels. -/
def invertLoop (inverts : Fin 6 → Bool) (value : Pose α) : Pose α :=
  fun i => value i * (if inverts i then -1 else 1)

/-- Lines 186-190: `value` after translation compensation, which reads and writes `value`. -/
def compensateStage (L : Libm α) (s : main_settings) (value : Pose α) : Pose α :=
  if s.tcomp_p then
    Pose.ofMem
      (Tracker.t_compensate (euler_to_rmat L (rotPtr value)) (Pose.toMem value) 0 0 s.tcomp_tz)
  else value

/-- Lines 192-202: the pose `output_pose_`. -/
def remapLoop (m : Fin 6 → Mapping α) (value : Pose α) : Pose α :=
  fun i =>
    let k := (m i).opts.src
    if k < 0 ∨ k ≥ 6 then 0 else value i

/-- The pose `value` after lines 134-170: the pose that enters the mapping loop. -/
def Tracker.postDelta (L : Libm α) (t : Tracker α) : Pose α :=
  let value := (t.load L).1
  (t.center L value).delta L value

/-- The pose `value` after line 173: what `map` returned for each channel. -/
def Tracker.postMap (L : Libm α) (t : Tracker α) : Pose α :=
  mapLoop t.m t.inverts (t.postDelta L)

/-- The pose `value` after line 180: the pose that the filter returned. -/
def Tracker.postFilter (L : Libm α) (t : Tracker α) : Pose α :=
  filterStage t.pFilter (t.postMap L)

/-- The pose `value` after line 190: the pose that enters the axis remap. -/
def Tracker.postCompensation (L : Libm α) (t : Tracker α) : Pose α :=
  compensateStage L t.s (invertLoop t.inverts (t.postFilter L))

/-- The method `Tracker::logic` (lines 120-210): the members after one call. -/
def Tracker.logic (L : Libm α) (t : Tracker α) : Tracker α :=
  let inverts := t.inverts
  let value := (t.load L).1
  let raw := (t.load L).2
  let t1 := t.center L value
  let value1 := t1.delta L value
  let value2 := mapLoop t1.m inverts value1
  let t2 : Tracker α := { t1 with m := mapLoopAxes t1.m inverts value1 }
  let value3 := filterStage t2.pFilter value2
  let value4 := invertLoop inverts value3
  let value5 := compensateStage L t2.s value4
  let output_pose_ := remapLoop t2.m value5
  { t2 with
    sent := t2.sent ++ [output_pose_]
    output_pose := output_pose_
    raw_6dof := raw }

/-- One pass of the loop of `Tracker::run` (lines 221-230), its timing apart: `tmp` is the
sample that `libs.pTracker->data` returned. -/
def Tracker.cycle (L : Libm α) (t : Tracker α) (tmp : Pose α) : Tracker α :=
  Tracker.logic L (if t.enabledp then { t with newpose := fun i => tmp i } else t)

/-- What reaches the tracker from outside before a cycle, a centre request apart: the flags
`zero_` and `enabledp` as other threads left them and the sample `tmp` of the source. -/
structure CycleEnv (α : Type) where
  /-- The flag `zero_` at the start of the cycle -/
  zero_ : Bool
  /-- The flag `enabledp` at the start of the cycle -/
  enabledp : Bool
  /-- The sample of the source -/
  tmp : Pose α

/-- A cycle of `run` on which no centre is requested. -/
def Tracker.runCycle (L : Libm α) (t : Tracker α) (e : CycleEnv α) : Tracker α :=
  Tracker.cycle L { t with zero_ := e.zero_, enabledp := e.enabledp } e.tmp

/-- The mapping of channel `i` with identity curves, no inversion, zero offset `0` and source
index `i`. -/
def plainMapping (i : Fin 6) : Mapping α where
  opts := { invert := false, altp := false, zero := 0, src := (i.val : ℤ) }
  curve := { getValue := fun x => x, trackingActive := false }
  curveAlt := { getValue := fun x => x, trackingActive := false }

/-- The tracker as constructed, with identity curves, zero offsets, no inversion, no filter,
no compensation and the identity axis map. -/
def plainTracker : Tracker α :=
  Tracker.init { tcomp_p := false, tcomp_tz := false } plainMapping none

/-- The configuration "identity curves, zero offsets, no invert, no filter, no compensation,
identity axis map" of the scenarios. -/
def Tracker.Plain (t : Tracker α) : Prop :=
  t.pFilter = none ∧ t.s.tcomp_p = false ∧
    ∀ i : Fin 6, (t.m i).opts.invert = false ∧ (t.m i).opts.zero = 0 ∧
      (t.m i).opts.src = (i.val : ℤ) ∧ (∀ x, (t.m i).curve.getValue x = x) ∧
      (∀ x, (t.m i).curveAlt.getValue x = x)

/-- The plain tracker with a pending centre request and the sample `a`. -/
def centreRequest (a : Pose α) : Tracker α :=
  { plainTracker with centerp := true, newpose := a }

/-- The plain tracker after a cycle that served a centre request on the sample `a`. -/
def centredAt (L : Libm α) (a : Pose α) : Tracker α :=
  Tracker.logic L (centreRequest a)

/-- The plain tracker with the inversion flags `inv`, the source indices `src` and the
sample `a`. -/
def configured (inv : Fin 6 → Bool) (src : Fin 6 → ℤ) (a : Pose α) : Tracker α :=
  { plainTracker with
    m := fun i =>
      { plainMapping i with opts := { invert := inv i, altp := false, zero := 0, src := src i } }
    newpose := a }

/-- The plain tracker with the sample `a`. -/
def plainSample (a : Pose α) : Tracker α :=
  { plainTracker with newpose := a }

/-- The plain tracker with the zero offset `z` on every channel. -/
def offsetTracker (z : α) : Tracker α :=
  { plainTracker with
    m := fun i =>
      { plainMapping i with
        opts := { invert := false, altp := false, zero := z, src := (i.val : ℤ) } } }

/-! ## `Tracker::run` -/

/-- Modelled from the spec: the default constructor of `Pose` (header `pose.hpp`) is not among
the sources. A default-constructed pose is the all-zero pose: `run` hands one to the protocol
as the exact origin that "filter may inhibit" in the shutdown pass. -/
def Pose.ctor : Pose α :=
  fun _ => 0

/-- What reaches the tracker from outside before one pass of the loop of `run`: whether
another thread has requested a centre, the flags `zero_` and `enabledp` as other threads left
them, and the sample `tmp` of the source. -/
structure LoopEnv (α : Type) where
  /-- A centre request has arrived since the last pass -/
  center : Bool
  /-- The flag `zero_` at the start of the pass -/
  zero_ : Bool
  /-- The flag `enabledp` at the start of the pass -/
  enabledp : Bool
  /-- The sample of the source -/
  tmp : Pose α

/-- One pass of the loop of `run` (lines 221-230) after what `e` describes has happened. -/
def Tracker.pass (L : Libm α) (t : Tracker α) (e : LoopEnv α) : Tracker α :=
  Tracker.cycle L
    { t with centerp := t.centerp || e.center, zero_ := e.zero_, enabledp := e.enabledp } e.tmp

/-- Lines 238-239 of `run`: the sample is set to the origin. -/
def Tracker.originSample (t : Tracker α) : Tracker α :=
  { t with newpose := fun _ => 0 }

/-- Lines 236-254 of `run`: the last pass of `logic` on the origin sample, the pose `p` handed
to the protocol, and both curves of every channel marked inactive. -/
def Tracker.shutdown (L : Libm α) (t : Tracker α) : Tracker α :=
  let t1 := Tracker.logic L t.originSample
  let p : Pose α := Pose.ctor
  let t2 : Tracker α := { t1 with sent := t1.sent ++ [p] }
  { t2 with
    m := fun i =>
      { t2.m i with
        curve := (t2.m i).curve.setTrackingActive false
        curveAlt := (t2.m i).curveAlt.setTrackingActive false } }

/-- The method `Tracker::run` (lines 212-255), its timing apart. The list `es` holds, pass by
pass, what reached the tracker while the loop found `should_quit` clear; the loop is left
when another thread has set the flag. -/
def Tracker.run (L : Libm α) (t : Tracker α) (es : List (LoopEnv α)) : Tracker α :=
  Tracker.shutdown L { es.foldl (Tracker.pass L) t with should_quit := true }

/-- The states a tracker goes through: the tracker as constructed, and the state after a call
of `logic` on a state that the other threads and `run` may have changed in everything but
the reference `r_b`, `t_b`, which `logic` alone writes. -/
inductive Reachable (L : Libm α) : Tracker α → Prop
  | init (s : main_settings) (m : Fin 6 → Mapping α) (pFilter : Option (Pose α → Pose α)) :
      Reachable L (Tracker.init s m pFilter)
  | logic (t u : Tracker α) (ht : Reachable L t) (hr : u.r_b = t.r_b) (ht_b : u.t_b = t.t_b) :
      Reachable L (Tracker.logic L u)

/-! ## Auxiliary facts -/

theorem realLibm_sin (x : ℝ) : realLibm.sin x = Real.sin x := rfl

theorem realLibm_cos (x : ℝ) : realLibm.cos x = Real.cos x := rfl

theorem realLibm_asin (x : ℝ) : realLibm.asin x = Real.arcsin x := rfl

/-- Where the divisor is not zero `atan_div` is the arctangent of the quotient. -/
theorem realLibm_atan_div (a : ℝ) {b : ℝ} (hb : b ≠ 0) :
    realLibm.atan_div a b = Real.arctan (a / b) := by
  show (if b = 0 then atanDivZero a else Real.arctan (a / b)) = _
  rw [if_neg hb]

/-- For a positive radius and an angle in `(-π, π]`, `atan2` of the point is the angle. -/
theorem realLibm_atan2_polar {r θ : ℝ} (hr : 0 < r) (h1 : -Real.pi < θ) (h2 : θ ≤ Real.pi) :
    realLibm.atan2 (r * Real.sin θ) (r * Real.cos θ) = θ := by
  show Complex.arg (((r * Real.cos θ : ℝ) : ℂ) + ((r * Real.sin θ : ℝ) : ℂ) * Complex.I) = θ
  have e : (((r * Real.cos θ : ℝ) : ℂ) + ((r * Real.sin θ : ℝ) : ℂ) * Complex.I)
      = (r : ℂ) * (Complex.cos θ + Complex.sin θ * Complex.I) := by
    push_cast; ring
  rw [e]
  exact Complex.arg_mul_cos_add_sin_mul_I hr ⟨h1, h2⟩

/-- On the negative real axis `atan2` is `π`. -/
theorem realLibm_atan2_neg {x : ℝ} (hx : x < 0) : realLibm.atan2 0 x = Real.pi := by
  show Complex.arg ((x : ℂ) + ((0 : ℝ) : ℂ) * Complex.I) = Real.pi
  simp [Complex.arg_ofReal_of_neg hx]

/-- On the positive real axis, the origin included, `atan2` is `0`. -/
theorem realLibm_atan2_zero {x : ℝ} (hx : 0 ≤ x) : realLibm.atan2 0 x = 0 := by
  show Complex.arg ((x : ℂ) + ((0 : ℝ) : ℂ) * Complex.I) = 0
  simp [Complex.arg_ofReal_of_nonneg hx]

/-- Degrees to radians and back with the constants of `tracker.cpp` is exact. -/
theorem r2d_mul (x : ℝ) : x * (pi : ℝ) / 180 * r2d = x := by
  unfold r2d pi; norm_num; ring

/-- Outside the gimbal band `rmat_to_euler` takes its last branch. -/
theorem rmat_to_euler_mid (L : Libm α) (R : dmat 3 3 α) (h1 : R 0 2 ≤ 1 - 2e-4)
    (h2 : -(1 - 2e-4) ≤ R 0 2) :
    rmat_to_euler L R =
      !![L.atan2 (R 0 1) (R 0 0); L.asin (-R 0 2); L.atan2 (R 1 2) (R 2 2)] := by
  unfold rmat_to_euler
  simp only [gt_iff_lt, not_lt.mpr h1, not_lt.mpr h2, if_false]

/-- The entries of a column built by `rmat_to_euler`. -/
theorem col_apply {β : Type} (a b c : β) (i : Fin 3) (j : Fin 1) :
    (!![a; b; c] : dmat 3 1 β) i j = ![a, b, c] i := by
  fin_cases i <;> fin_cases j <;> rfl

/-- The entries of `euler_to_rmat`, row by row: the array `foo` read column by column. -/
theorem euler_to_rmat_eq (L : Libm α) (v : Fin 3 → α) (i j : Fin 3) :
    euler_to_rmat L v i j =
      ![![L.cos (v 0 * pi / 180) * L.cos (v 1 * pi / 180),
          L.cos (v 1 * pi / 180) * L.sin (v 0 * pi / 180),
          -L.sin (v 1 * pi / 180)],
        ![L.cos (v 0 * pi / 180) * L.sin (v 1 * pi / 180) * L.sin (v 2 * pi / 180)
            - L.cos (v 2 * pi / 180) * L.sin (v 0 * pi / 180),
          L.cos (v 0 * pi / 180) * L.cos (v 2 * pi / 180)
            + L.sin (v 0 * pi / 180) * L.sin (v 1 * pi / 180) * L.sin (v 2 * pi / 180),
          L.cos (v 1 * pi / 180) * L.sin (v 2 * pi / 180)],
        ![L.sin (v 0 * pi / 180) * L.sin (v 2 * pi / 180)
            + L.cos (v 0 * pi / 180) * L.cos (v 2 * pi / 180) * L.sin (v 1 * pi / 180),
          L.cos (v 2 * pi / 180) * L.sin (v 0 * pi / 180) * L.sin (v 1 * pi / 180)
            - L.cos (v 0 * pi / 180) * L.sin (v 2 * pi / 180),
          L.cos (v 1 * pi / 180) * L.cos (v 2 * pi / 180)]] i j := by
  fin_cases i <;> fin_cases j <;> rfl

/-- Over the reals `euler_to_rmat` times its transpose is the identity, for all angles. -/
theorem euler_to_rmat_mul_transpose (v : Fin 3 → ℝ) :
    euler_to_rmat realLibm v * (euler_to_rmat realLibm v).transpose = 1 := by
  have h1 := Real.sin_sq_add_cos_sq (v 0 * pi / 180)
  have h2 := Real.sin_sq_add_cos_sq (v 1 * pi / 180)
  have h3 := Real.sin_sq_add_cos_sq (v 2 * pi / 180)
  ext i j
  simp only [Matrix.mul_apply, Fin.sum_univ_three, Matrix.transpose_apply, euler_to_rmat_eq,
    realLibm_sin, realLibm_cos]
  generalize Real.sin (v 0 * pi / 180) = s1 at h1 ⊢
  generalize Real.cos (v 0 * pi / 180) = c1 at h1 ⊢
  generalize Real.sin (v 1 * pi / 180) = s2 at h2 ⊢
  generalize Real.cos (v 1 * pi / 180) = c2 at h2 ⊢
  generalize Real.sin (v 2 * pi / 180) = s3 at h3 ⊢
  generalize Real.cos (v 2 * pi / 180) = c3 at h3 ⊢
  fin_cases i <;> fin_cases j <;> simp
  · linear_combination c2 ^ 2 * h1 + h2
  · linear_combination (s2 * c2 * s3) * h1
  · linear_combination (s2 * c2 * c3) * h1
  · linear_combination (s2 * c2 * s3) * h1
  · linear_combination (s2 ^ 2 * s3 ^ 2 + c3 ^ 2) * h1 + s3 ^ 2 * h2 + h3
  · linear_combination (s2 ^ 2 * s3 * c3 - s3 * c3) * h1 + (s3 * c3) * h2
  · linear_combination (s2 * c2 * c3) * h1
  · linear_combination (s2 ^ 2 * s3 * c3 - s3 * c3) * h1 + (s3 * c3) * h2
  · linear_combination (s2 ^ 2 * c3 ^ 2 + s3 ^ 2) * h1 + c3 ^ 2 * h2 + h3

/-- The identity matrix has the angles `(0, 0, 0)`. -/
theorem rmat_to_euler_one : rmat_to_euler realLibm 1 = 0 := by
  rw [rmat_to_euler_mid _ _ (by simp; norm_num) (by simp; norm_num)]
  ext i j
  rw [col_apply]
  fin_cases i <;> simp [realLibm_asin, realLibm_atan2_zero]

/-- The constant `pi` of `tracker.cpp` lies below `π`, within `1e-9` of it. -/
theorem pi_lt_real_pi : (pi : ℝ) < Real.pi ∧ Real.pi < pi + 1e-9 := by
  have h1 := Real.pi_gt_d20
  have h2 := Real.pi_lt_d20
  unfold pi
  constructor <;> norm_num at h1 h2 ⊢ <;> linarith

/-- The round trip of the two conversions, over the reals: for yaw and roll strictly between
-180 and 180 degrees, pitch strictly between -90 and 90 degrees and a matrix outside the
gimbal band, `rmat_to_euler` of `euler_to_rmat`, taken to degrees, gives the angles back. -/
theorem rmat_to_euler_euler_to_rmat (a : Fin 3 → ℝ) (hy : -180 < a 0 ∧ a 0 < 180)
    (hp : -90 < a 1 ∧ a 1 < 90) (hr : -180 < a 2 ∧ a 2 < 180)
    (hb : |euler_to_rmat realLibm a 0 2| ≤ 1 - 2e-4) :
    (fun i : Fin 3 => rmat_to_euler realLibm (euler_to_rmat realLibm a) i 0 * r2d) = a := by
  obtain ⟨hpi, -⟩ := pi_lt_real_pi
  have hpos : (0 : ℝ) < pi := by unfold pi; norm_num
  have hH1 : -Real.pi < a 0 * pi / 180 := by
    have : -(pi : ℝ) < a 0 * pi / 180 := by nlinarith [hy.1]
    linarith
  have hH2 : a 0 * pi / 180 ≤ Real.pi := by
    have : a 0 * pi / 180 < (pi : ℝ) := by nlinarith [hy.2]
    linarith
  have hB1 : -Real.pi < a 2 * pi / 180 := by
    have : -(pi : ℝ) < a 2 * pi / 180 := by nlinarith [hr.1]
    linarith
  have hB2 : a 2 * pi / 180 ≤ Real.pi := by
    have : a 2 * pi / 180 < (pi : ℝ) := by nlinarith [hr.2]
    linarith
  have hP1 : -(Real.pi / 2) < a 1 * pi / 180 := by
    have : -((pi : ℝ) / 2) < a 1 * pi / 180 := by nlinarith [hp.1]
    linarith
  have hP2 : a 1 * pi / 180 < Real.pi / 2 := by
    have : a 1 * pi / 180 < (pi : ℝ) / 2 := by nlinarith [hp.2]
    linarith
  have hc : 0 < Real.cos (a 1 * pi / 180) := Real.cos_pos_of_mem_Ioo ⟨hP1, hP2⟩
  have e02 : euler_to_rmat realLibm a 0 2 = -Real.sin (a 1 * pi / 180) := by
    rw [euler_to_rmat_eq]; rfl
  have e01 : euler_to_rmat realLibm a 0 1
      = Real.cos (a 1 * pi / 180) * Real.sin (a 0 * pi / 180) := by
    rw [euler_to_rmat_eq]; rfl
  have e00 : euler_to_rmat realLibm a 0 0
      = Real.cos (a 1 * pi / 180) * Real.cos (a 0 * pi / 180) := by
    rw [euler_to_rmat_eq]; exact mul_comm _ _
  have e12 : euler_to_rmat realLibm a 1 2
      = Real.cos (a 1 * pi / 180) * Real.sin (a 2 * pi / 180) := by
    rw [euler_to_rmat_eq]; rfl
  have e22 : euler_to_rmat realLibm a 2 2
      = Real.cos (a 1 * pi / 180) * Real.cos (a 2 * pi / 180) := by
    rw [euler_to_rmat_eq]; rfl
  obtain ⟨hb1, hb2⟩ := abs_le.mp hb
  rw [rmat_to_euler_mid _ _ hb2 hb1, e01, e00, e02, e12, e22,
    realLibm_atan2_polar hc hH1 hH2, realLibm_atan2_polar hc hB1 hB2, realLibm_asin, neg_neg,
    Real.arcsin_sin hP1.le hP2.le]
  funext i
  rw [col_apply]
  fin_cases i
  · exact r2d_mul (a 0)
  · exact r2d_mul (a 1)
  · exact r2d_mul (a 2)

/-- The matrix of the angles `(40, 50, 60)` lies outside the gimbal band. -/
theorem band_40_50_60 : |euler_to_rmat realLibm ![40, 50, 60] 0 2| ≤ 1 - 2e-4 := by
  have e02 : euler_to_rmat realLibm ![40, 50, 60] 0 2 = -Real.sin (50 * pi / 180) := by
    rw [euler_to_rmat_eq]; rfl
  have h0 : (0 : ℝ) ≤ 50 * pi / 180 := by unfold pi; norm_num
  have h1 : (50 : ℝ) * pi / 180 ≤ 0.9 := by unfold pi; norm_num
  have hs := Real.sin_le h0
  have hn := Real.sin_nonneg_of_nonneg_of_le_pi h0 (by linarith [Real.pi_gt_three])
  rw [e02, abs_neg, abs_of_nonneg hn]
  norm_num at h1 ⊢
  linarith

/-- Without a pending centre request `logic` leaves the reference and the flag alone. -/
theorem logic_frame (L : Libm α) (t : Tracker α) (h : t.centerp = false) :
    (t.logic L).centerp = false ∧ (t.logic L).r_b = t.r_b ∧ (t.logic L).t_b = t.t_b := by
  simp [Tracker.logic, Tracker.center, h]

/-- Cycles without a centre request leave the reference and the flag alone. -/
theorem runCycle_frame (L : Libm α) (es : List (CycleEnv α)) (t : Tracker α)
    (h : t.centerp = false) :
    (es.foldl (Tracker.runCycle L) t).centerp = false ∧
      (es.foldl (Tracker.runCycle L) t).r_b = t.r_b ∧
      (es.foldl (Tracker.runCycle L) t).t_b = t.t_b := by
  induction es generalizing t with
  | nil => exact ⟨h, rfl, rfl⟩
  | cons e es ih =>
    have step : (Tracker.runCycle L t e).centerp = false ∧
        (Tracker.runCycle L t e).r_b = t.r_b ∧ (Tracker.runCycle L t e).t_b = t.t_b := by
      unfold Tracker.runCycle Tracker.cycle
      by_cases he : e.enabledp = true
      · simpa [he] using logic_frame L _ (by simpa using h)
      · simpa [he] using logic_frame L _ (by simpa using h)
    obtain ⟨h1, h2, h3⟩ := ih (Tracker.runCycle L t e) step.1
    exact ⟨h1, h2.trans step.2.1, h3.trans step.2.2⟩

/-- Serving a centre request changes neither mappings, nor settings, nor filter. -/
theorem center_config (L : Libm α) (t : Tracker α) (v : Pose α) :
    (t.center L v).m = t.m ∧ (t.center L v).s = t.s ∧ (t.center L v).pFilter = t.pFilter ∧
      (t.center L v).sent = t.sent := by
  unfold Tracker.center
  split <;> simp

/-- The pose that `logic` publishes and sends, stage by stage. -/
theorem logic_output (L : Libm α) (t : Tracker α) :
    (t.logic L).output_pose =
        (fun i => if (t.m i).opts.src < 0 ∨ (t.m i).opts.src ≥ 6 then 0
          else t.postCompensation L i) ∧
      (t.logic L).sent = t.sent ++ [(t.logic L).output_pose] := by
  obtain ⟨hm, hs, hf, hsent⟩ := center_config L t (t.load L).1
  constructor
  · funext i
    simp [Tracker.logic, remapLoop, Tracker.postCompensation, compensateStage, Tracker.postFilter,
      filterStage, Tracker.postMap, mapLoop, Tracker.postDelta, hm, hs, hf,
      mapLoopAxes, Tracker.map, Map.setTrackingActive]
  · simp [Tracker.logic, hsent]

/-- With the plain configuration `logic` publishes and sends the post-delta pose. -/
theorem logic_plain (L : Libm α) (t : Tracker α) (h : t.Plain) :
    (t.logic L).output_pose = t.postDelta L ∧
      (t.logic L).sent = t.sent ++ [t.postDelta L] := by
  obtain ⟨hf, hc, hm⟩ := h
  have key : (t.logic L).output_pose = t.postDelta L := by
    rw [(logic_output L t).1]
    funext i
    obtain ⟨h1, h2, h3, h4, h5⟩ := hm i
    have hsrc : ¬ ((t.m i).opts.src < 0 ∨ (t.m i).opts.src ≥ 6) := by
      rw [h3]; have := i.isLt; omega
    rw [if_neg hsrc]
    simp [Tracker.postCompensation, compensateStage, Tracker.postFilter, hc, invertLoop, Tracker.inverts,
      h1, filterStage, hf, Tracker.postMap, mapLoop, Tracker.map, h2, h4, h5,
      Map.setTrackingActive]
    split <;> simp [h4, h5]
  exact ⟨key, by rw [(logic_output L t).2, key]⟩

/-- A cycle that serves a centre request stores the working pose as the reference. -/
theorem logic_center (L : Libm α) (t : Tracker α) (h : t.centerp = true) :
    (t.logic L).centerp = false ∧ (t.logic L).r_b = euler_to_rmat L (rotPtr (t.load L).1) ∧
      (t.logic L).t_b = fun i => (t.load L).1 ⟨i.val, by have := i.isLt; omega⟩ := by
  simp [Tracker.logic, Tracker.center, h]

/-- What `logic` never writes: the flags `zero_` and `enabledp`, the sample, the settings and
the filter; of the mappings it writes the activity flags of the curves only. -/
theorem logic_config (L : Libm α) (t : Tracker α) :
    (t.logic L).zero_ = t.zero_ ∧ (t.logic L).enabledp = t.enabledp ∧
      (t.logic L).newpose = t.newpose ∧ (t.logic L).s = t.s ∧
      (t.logic L).pFilter = t.pFilter ∧
      ∀ i, ((t.logic L).m i).opts = (t.m i).opts ∧
        ((t.logic L).m i).curve.getValue = (t.m i).curve.getValue ∧
        ((t.logic L).m i).curveAlt.getValue = (t.m i).curveAlt.getValue := by
  have hcen : ∀ v, (t.center L v).zero_ = t.zero_ ∧ (t.center L v).enabledp = t.enabledp ∧
      (t.center L v).newpose = t.newpose := by
    intro v; unfold Tracker.center; split <;> simp
  obtain ⟨hm, hs, hf, -⟩ := center_config L t (t.load L).1
  obtain ⟨h1, h2, h3⟩ := hcen (t.load L).1
  refine ⟨by simp [Tracker.logic, h1], by simp [Tracker.logic, h2], by simp [Tracker.logic, h3],
    by simp [Tracker.logic, hs], by simp [Tracker.logic, hf], fun i => ?_⟩
  simp [Tracker.logic, mapLoopAxes, Tracker.map, Map.setTrackingActive, hm]

/-- The plain configuration survives `logic`. -/
theorem logic_Plain (L : Libm α) (t : Tracker α) (h : t.Plain) : (t.logic L).Plain := by
  obtain ⟨hf, hc, hm⟩ := h
  obtain ⟨-, -, -, hs, hf2, hm2⟩ := logic_config L t
  refine ⟨by rw [hf2, hf], by rw [hs, hc], fun i => ?_⟩
  obtain ⟨h1, h2, h3, h4, h5⟩ := hm i
  obtain ⟨g1, g2, g3⟩ := hm2 i
  rw [g1, g2, g3]
  exact ⟨h1, h2, h3, h4, h5⟩

/-- The delta of a pose against a reference with the same rotation angles. -/
theorem delta_same_rotation (u : Tracker ℝ) (value : Pose ℝ)
    (hr : u.r_b = euler_to_rmat realLibm (rotPtr value)) :
    u.delta realLibm value =
      fun i => if h : i.val < 3 then value i - u.t_b ⟨i.val, h⟩ else 0 := by
  unfold Tracker.delta
  simp only [hr, euler_to_rmat_mul_transpose, rmat_to_euler_one]
  funext i
  split <;> simp

/-- The post-delta pose of a cycle that serves a centre request is all-zero, whether zero is
engaged or not. -/
theorem postDelta_centering (t : Tracker ℝ) (hc : t.centerp = true) :
    t.postDelta realLibm = 0 := by
  unfold Tracker.postDelta
  rw [delta_same_rotation _ _ (by simp [Tracker.center, hc])]
  funext i
  simp [Tracker.center, hc]

/-- The post-delta pose of a cycle without centre request, zero not engaged, on a sample with
the rotation angles of the reference. -/
theorem postDelta_anchored (u : Tracker ℝ) (hc : u.centerp = false) (hz : u.zero_ = false)
    (hr : u.r_b = euler_to_rmat realLibm (rotPtr u.newpose)) :
    u.postDelta realLibm =
      fun i => if h : i.val < 3 then u.newpose i - u.t_b ⟨i.val, h⟩ else 0 := by
  have hl : (u.load realLibm).1 = u.newpose := by simp [Tracker.load, hz]
  have hcen : u.center realLibm u.newpose = u := by simp [Tracker.center, hc]
  show (u.center realLibm (u.load realLibm).1).delta realLibm (u.load realLibm).1 = _
  rw [hl, hcen, delta_same_rotation _ _ hr]

/-- A cycle of `run` without centre request on an enabled plain tracker, zero not engaged,
whose sample has the rotation angles of the reference: what it publishes and what it keeps. -/
theorem cycle_plain_anchored (u : Tracker ℝ) (b : Pose ℝ) (hP : u.Plain)
    (he : u.enabledp = true) (hc : u.centerp = false) (hz : u.zero_ = false)
    (hr : u.r_b = euler_to_rmat realLibm (rotPtr b)) :
    (u.cycle realLibm b).output_pose
        = (fun i => if h : i.val < 3 then b i - u.t_b ⟨i.val, h⟩ else 0) ∧
      (u.cycle realLibm b).sent
        = u.sent ++ [fun i => if h : i.val < 3 then b i - u.t_b ⟨i.val, h⟩ else 0] ∧
      (u.cycle realLibm b).Plain ∧ (u.cycle realLibm b).enabledp = true ∧
      (u.cycle realLibm b).centerp = false ∧ (u.cycle realLibm b).zero_ = false ∧
      (u.cycle realLibm b).r_b = u.r_b ∧ (u.cycle realLibm b).t_b = u.t_b := by
  have hcy : u.cycle realLibm b = Tracker.logic realLibm { u with newpose := fun i => b i } := by
    simp [Tracker.cycle, he]
  rw [hcy]
  generalize hv : ({ u with newpose := fun i => b i } : Tracker ℝ) = v
  have v1 : v.Plain := by subst hv; exact hP
  have v2 : v.enabledp = true := by subst hv; exact he
  have v3 : v.centerp = false := by subst hv; exact hc
  have v4 : v.zero_ = false := by subst hv; exact hz
  have v5 : v.r_b = euler_to_rmat realLibm (rotPtr v.newpose) := by subst hv; exact hr
  have v6 : v.newpose = b := by subst hv; rfl
  have v7 : v.t_b = u.t_b := by subst hv; rfl
  have v8 : v.sent = u.sent := by subst hv; rfl
  have v9 : v.r_b = u.r_b := by subst hv; rfl
  obtain ⟨o1, o2⟩ := logic_plain realLibm v v1
  obtain ⟨f1, f2, f3⟩ := logic_frame realLibm v v3
  obtain ⟨g1, g2, -, -, -, -⟩ := logic_config realLibm v
  rw [postDelta_anchored v v3 v4 v5, v6, v7] at o1 o2
  rw [v8] at o2
  exact ⟨o1, o2, logic_Plain _ _ v1, by rw [g2, v2], f1, by rw [g1, v4], by rw [f2, v9],
    by rw [f3, v7]⟩

/-- With zero engaged the working pose is the stored reference. -/
theorem load_zero (L : Libm α) (t : Tracker α) (hz : t.zero_ = true) :
    (∀ i : Fin 3, (t.load L).1 ⟨i.val, by have := i.isLt; omega⟩ = t.t_b i) ∧
      rotPtr (t.load L).1 = (fun i => rmat_to_euler L t.r_b i 0 * r2d) ∧
      (t.load L).2 = (t.load L).1 := by
  have hl : t.load L =
      ((fun i => if h : i.val < 3 then t.t_b ⟨i.val, h⟩
          else rmat_to_euler L t.r_b ⟨i.val - 3, by have := i.isLt; omega⟩ 0 * r2d),
        (fun i => if h : i.val < 3 then t.t_b ⟨i.val, h⟩
          else rmat_to_euler L t.r_b ⟨i.val - 3, by have := i.isLt; omega⟩ 0 * r2d)) := by
    simp [Tracker.load, hz]
  rw [hl]
  refine ⟨fun i => ?_, ?_, rfl⟩
  · fin_cases i <;> rfl
  · funext i
    fin_cases i <;> rfl

/-- Translation compensation of the all-zero pose is the all-zero pose. -/
theorem compensateStage_zero (L : Libm α) (s : main_settings) :
    compensateStage L s (0 : Pose α) = 0 := by
  unfold compensateStage
  split
  · funext i
    have hmem : ∀ q, Pose.toMem (0 : Pose α) q = 0 := by
      intro q; unfold Pose.toMem; split <;> rfl
    simp only [Pose.ofMem, Tracker.t_compensate, Mem.write, Matrix.mul_apply,
      Fin.sum_univ_three, col_apply, hmem]
    cases s.tcomp_tz <;> fin_cases i <;> simp [Mem.write, hmem]
  · rfl

/-- The mapping loop, the filter stage without filter and the inversion loop keep the all-zero
pose when the curves are identities and the zero offsets are `0`. -/
theorem mapLoop_zero (m : Fin 6 → Mapping α) (inverts : Fin 6 → Bool)
    (hm : ∀ i, (m i).opts.zero = 0 ∧ (∀ x, (m i).curve.getValue x = x) ∧
      (∀ x, (m i).curveAlt.getValue x = x)) :
    invertLoop inverts (filterStage none (mapLoop m inverts (0 : Pose α))) = 0 := by
  funext i
  obtain ⟨h1, h2, h3⟩ := hm i
  simp only [invertLoop, filterStage, mapLoop, Tracker.map, Map.setTrackingActive, h1]
  split <;> simp [h2, h3]

/-- The matrix of the angles `(0, 0, 0)` is the identity. -/
theorem euler_to_rmat_zero : euler_to_rmat realLibm (fun _ => 0) = 1 := by
  ext i j
  simp only [euler_to_rmat_eq, realLibm_sin, realLibm_cos, zero_mul, zero_div, Real.sin_zero,
    Real.cos_zero]
  fin_cases i <;> fin_cases j <;> simp [Matrix.vecHead, Matrix.vecTail]

/-- Above the gimbal band `rmat_to_euler` takes its first branch. -/
theorem rmat_to_euler_hi (L : Libm α) (R : dmat 3 3 α) (h : R 0 2 > 1 - 2e-4) :
    rmat_to_euler L R = !![0; 90 * pi / 180; L.atan_div (R 1 0) (R 2 0)] := by
  unfold rmat_to_euler
  simp only [h, if_true]

/-- Below the gimbal band `rmat_to_euler` takes its second branch. -/
theorem rmat_to_euler_lo (L : Libm α) (R : dmat 3 3 α) (h1 : ¬ R 0 2 > 1 - 2e-4)
    (h2 : R 0 2 < -(1 - 2e-4)) :
    rmat_to_euler L R = !![0; -(90 * pi / 180); L.atan_div (R 1 0) (R 2 0)] := by
  unfold rmat_to_euler
  simp only [h1, h2, if_true, if_false]

/-- The sine of 90 degrees, taken to radians with the constant `pi`, is within `1e-9` of 1. -/
theorem sin_ninety :
    (1 : ℝ) - 1e-9 ≤ Real.sin (90 * pi / 180) ∧ Real.sin (90 * pi / 180) ≤ 1 := by
  have h1 := Real.pi_gt_d6
  have h2 := Real.pi_lt_d6
  have e : Real.sin (90 * pi / 180) = Real.cos (Real.pi / 2 - 90 * pi / 180) := by
    rw [Real.cos_pi_div_two_sub]
  have hb := Real.one_sub_sq_div_two_le_cos (x := Real.pi / 2 - 90 * pi / 180)
  have hd1 : -1e-6 ≤ Real.pi / 2 - 90 * (pi : ℝ) / 180 := by unfold pi; norm_num; linarith
  have hd2 : Real.pi / 2 - 90 * (pi : ℝ) / 180 ≤ 1e-6 := by unfold pi; norm_num; linarith
  refine ⟨?_, Real.sin_le_one _⟩
  rw [e]
  nlinarith

/-- The cosine of 180 degrees, taken to radians with the constant `pi`, is within `1e-9`
of -1. -/
theorem cos_one_eighty :
    (-1 : ℝ) ≤ Real.cos (180 * pi / 180) ∧ Real.cos (180 * pi / 180) ≤ -1 + 1e-9 := by
  have h1 := Real.pi_gt_d6
  have h2 := Real.pi_lt_d6
  have e : Real.cos (180 * pi / 180) = -Real.cos (Real.pi - 180 * pi / 180) := by
    rw [Real.cos_pi_sub, neg_neg]
  have hb := Real.one_sub_sq_div_two_le_cos (x := Real.pi - 180 * pi / 180)
  have hd1 : -1e-6 ≤ Real.pi - 180 * (pi : ℝ) / 180 := by unfold pi; norm_num; linarith
  have hd2 : Real.pi - 180 * (pi : ℝ) / 180 ≤ 1e-6 := by unfold pi; norm_num; linarith
  refine ⟨Real.neg_one_le_cos _, ?_⟩
  rw [e]
  nlinarith

/-- Without filter, inversion and compensation, with identity curves and zero offsets `0`,
the pose that enters the axis remap is the post-delta pose. -/
theorem postCompensation_of_identity (L : Libm α) (t : Tracker α) (hf : t.pFilter = none)
    (hc : t.s.tcomp_p = false)
    (hm : ∀ i : Fin 6, (t.m i).opts.invert = false ∧ (t.m i).opts.zero = 0 ∧
      (∀ x, (t.m i).curve.getValue x = x) ∧ (∀ x, (t.m i).curveAlt.getValue x = x)) :
    t.postCompensation L = t.postDelta L := by
  funext i
  obtain ⟨h1, h2, h4, h5⟩ := hm i
  simp [Tracker.postCompensation, compensateStage, Tracker.postFilter, hc, invertLoop,
    Tracker.inverts, h1, filterStage, hf, Tracker.postMap, mapLoop, Tracker.map, h2,
    Map.setTrackingActive]
  split <;> simp [h4, h5]

/-- With identity curves and zero offsets `0` the mapping loop returns the post-delta pose. -/
theorem postMap_of_identity (L : Libm α) (t : Tracker α)
    (hm : ∀ i : Fin 6, (t.m i).opts.zero = 0 ∧ (∀ x, (t.m i).curve.getValue x = x) ∧
      (∀ x, (t.m i).curveAlt.getValue x = x)) :
    t.postMap L = t.postDelta L := by
  funext i
  obtain ⟨h2, h4, h5⟩ := hm i
  simp only [Tracker.postMap, mapLoop, Tracker.map, Map.setTrackingActive, h2, add_zero]
  split <;> simp [h4, h5]

/-- The post-delta pose of the origin sample, zero not engaged and no centre pending: the
reference translation negated and the angles of the transposed reference rotation. -/
theorem postDelta_originSample (t : Tracker ℝ) (hc : t.centerp = false)
    (hz : t.zero_ = false) :
    t.originSample.postDelta realLibm =
      fun i => if h : i.val < 3 then -t.t_b ⟨i.val, h⟩
        else rmat_to_euler realLibm t.r_b.transpose
          ⟨i.val - 3, by have := i.isLt; omega⟩ 0 * r2d := by
  have hl : (t.originSample.load realLibm).1 = fun _ => 0 := by
    simp [Tracker.load, Tracker.originSample, hz]
  have hcen : t.originSample.center realLibm (fun _ => 0) = t.originSample := by
    simp [Tracker.center, Tracker.originSample, hc]
  show (t.originSample.center realLibm (t.originSample.load realLibm).1).delta realLibm
    (t.originSample.load realLibm).1 = _
  rw [hl, hcen]
  unfold Tracker.delta
  have hrot : rotPtr (fun _ => 0 : Pose ℝ) = fun _ => 0 := rfl
  simp only [hrot, euler_to_rmat_zero, one_mul]
  funext i
  split
  · simp [Tracker.originSample]
  · rfl

/-- Degrees to radians and back with the constants of `tracker.cpp`, in any ordered field. -/
theorem r2d_mul_field (x : α) : x * (pi : α) / 180 * r2d = x := by
  unfold r2d pi; norm_num; ring

/-- Over the reals the determinant of `euler_to_rmat` is `1`, for all angles. -/
theorem euler_to_rmat_det (v : Fin 3 → ℝ) : (euler_to_rmat realLibm v).det = 1 := by
  have h1 := Real.sin_sq_add_cos_sq (v 0 * pi / 180)
  have h2 := Real.sin_sq_add_cos_sq (v 1 * pi / 180)
  have h3 := Real.sin_sq_add_cos_sq (v 2 * pi / 180)
  rw [Matrix.det_fin_three]
  simp only [euler_to_rmat_eq, realLibm_sin, realLibm_cos]
  generalize Real.sin (v 0 * pi / 180) = s1 at h1 ⊢
  generalize Real.cos (v 0 * pi / 180) = c1 at h1 ⊢
  generalize Real.sin (v 1 * pi / 180) = s2 at h2 ⊢
  generalize Real.cos (v 1 * pi / 180) = c2 at h2 ⊢
  generalize Real.sin (v 2 * pi / 180) = s3 at h3 ⊢
  generalize Real.cos (v 2 * pi / 180) = c3 at h3 ⊢
  simp
  linear_combination
    (s2 ^ 2 * s3 ^ 2 + s2 ^ 2 * c3 ^ 2 + c2 ^ 2 * s3 ^ 2 + c2 ^ 2 * c3 ^ 2) * h1
      + (s3 ^ 2 + c3 ^ 2) * h2 + h3

/-- In every reachable state the reference rotation times its transpose is the identity. -/
theorem reachable_orthonormal (t : Tracker ℝ) (h : Reachable realLibm t) :
    t.r_b * t.r_b.transpose = 1 := by
  induction h with
  | init s m pFilter => simp [Tracker.init]
  | logic t u _ hr _ ih =>
    cases hc : u.centerp
    · rw [(logic_frame realLibm u hc).2.1, hr]; exact ih
    · rw [(logic_center realLibm u hc).2.1]; exact euler_to_rmat_mul_transpose _

/-- On the plain tracker with the sample `(1,2,3,0,0,0)` the pose after the inversion loop
is the sample, whose rotation channels are `0`. -/
theorem plain_rotation_free :
    invertLoop (plainSample ![1, 2, 3, 0, 0, 0] : Tracker ℝ).inverts
        (Tracker.postFilter realLibm (plainSample ![1, 2, 3, 0, 0, 0]))
      = ![1, 2, 3, 0, 0, 0] := by
  generalize hu : (plainSample ![1, 2, 3, 0, 0, 0] : Tracker ℝ) = u
  have hrot : rotPtr (![1, 2, 3, 0, 0, 0] : Pose ℝ) = fun _ => 0 := by
    funext i; fin_cases i <;> rfl
  have u1 : u.centerp = false := by subst hu; rfl
  have u2 : u.zero_ = false := by subst hu; rfl
  have u3 : u.newpose = ![1, 2, 3, 0, 0, 0] := by subst hu; rfl
  have u4 : u.r_b = euler_to_rmat realLibm (rotPtr u.newpose) := by
    rw [u3, hrot, euler_to_rmat_zero]; subst hu; rfl
  have u5 : u.t_b = ![0, 0, 0] := by subst hu; rfl
  have u6 : u.pFilter = none := by subst hu; rfl
  have u7 : ∀ i, u.inverts i = false := by subst hu; exact fun _ => rfl
  have pd : u.postDelta realLibm = ![1, 2, 3, 0, 0, 0] := by
    rw [postDelta_anchored u u1 u2 u4, u3, u5]
    funext i
    fin_cases i
    all_goals simp
    all_goals rfl
  have pm : u.postMap realLibm = ![1, 2, 3, 0, 0, 0] := by
    rw [postMap_of_identity realLibm u
      (by subst hu; exact fun i => ⟨rfl, fun _ => rfl, fun _ => rfl⟩), pd]
  funext i
  simp only [invertLoop, Tracker.postFilter, u6, filterStage, pm, u7]
  simp


/-- Radians to degrees and back with the constants of `tracker.cpp`. -/
theorem mul_r2d (x : ℝ) : x * r2d * (pi : ℝ) / 180 = x := by
  unfold r2d pi; norm_num; ring

/-- Cosine and sine of `atan2 (k sin θ) (k cos θ)` for `k ≠ 0`: those of `θ`, with the sign
of `k`. -/
theorem atan2_cos_sin (k θ : ℝ) (hk : k ≠ 0) :
    Real.cos (realLibm.atan2 (k * Real.sin θ) (k * Real.cos θ)) = k / |k| * Real.cos θ ∧
    Real.sin (realLibm.atan2 (k * Real.sin θ) (k * Real.cos θ)) = k / |k| * Real.sin θ := by
  have habs : Complex.abs (((k * Real.cos θ : ℝ) : ℂ) + ((k * Real.sin θ : ℝ) : ℂ) * Complex.I)
      = |k| := by
    rw [Complex.abs_add_mul_I]
    have : (k * Real.cos θ) ^ 2 + (k * Real.sin θ) ^ 2 = k ^ 2 := by
      have h := Real.sin_sq_add_cos_sq θ
      linear_combination k ^ 2 * h
    rw [this, Real.sqrt_sq_eq_abs]
  have hne : ((k * Real.cos θ : ℝ) : ℂ) + ((k * Real.sin θ : ℝ) : ℂ) * Complex.I ≠ 0 := by
    intro h
    have := congrArg Complex.abs h
    rw [habs, map_zero] at this
    exact hk (abs_eq_zero.mp this)
  constructor
  · show Real.cos (Complex.arg _) = _
    rw [Complex.cos_arg hne, habs]
    simp only [Complex.add_re, Complex.mul_re, Complex.ofReal_re, Complex.ofReal_im,
      Complex.I_re, Complex.I_im, mul_zero, mul_one, sub_zero, zero_mul, add_zero]
    ring
  · show Real.sin (Complex.arg _) = _
    rw [Complex.sin_arg, habs]
    simp only [Complex.add_im, Complex.mul_im, Complex.ofReal_re, Complex.ofReal_im,
      Complex.I_re, Complex.I_im, mul_zero, mul_one, zero_mul, add_zero, zero_add]
    ring

/-- Two triples of angles whose cosines and sines agree up to a common sign `ε` of the yaw,
roll and pitch-cosine terms have the same matrix. -/
theorem euler_to_rmat_of_signs (v w : Fin 3 → ℝ) (ε : ℝ) (hε : ε * ε = 1)
    (c0 : Real.cos (v 0 * pi / 180) = ε * Real.cos (w 0 * pi / 180))
    (s0 : Real.sin (v 0 * pi / 180) = ε * Real.sin (w 0 * pi / 180))
    (c1 : Real.cos (v 1 * pi / 180) = ε * Real.cos (w 1 * pi / 180))
    (s1 : Real.sin (v 1 * pi / 180) = Real.sin (w 1 * pi / 180))
    (c2 : Real.cos (v 2 * pi / 180) = ε * Real.cos (w 2 * pi / 180))
    (s2 : Real.sin (v 2 * pi / 180) = ε * Real.sin (w 2 * pi / 180)) :
    euler_to_rmat realLibm v = euler_to_rmat realLibm w := by
  ext i j
  rw [euler_to_rmat_eq, euler_to_rmat_eq]
  simp only [realLibm_sin, realLibm_cos, c0, s0, c1, s1, c2, s2]
  generalize Real.sin (w 0 * pi / 180) = S1
  generalize Real.cos (w 0 * pi / 180) = C1
  generalize Real.sin (w 1 * pi / 180) = S2
  generalize Real.cos (w 1 * pi / 180) = C2
  generalize Real.sin (w 2 * pi / 180) = S3
  generalize Real.cos (w 2 * pi / 180) = C3
  fin_cases i <;> fin_cases j
  · simp; linear_combination (C1 * C2) * hε
  · simp; linear_combination (C2 * S1) * hε
  · simp
  · simp; linear_combination (C1 * S2 * S3 - C3 * S1) * hε
  · simp; linear_combination (C1 * C3 + S1 * S2 * S3) * hε
  · simp; linear_combination (C2 * S3) * hε
  · simp; linear_combination (S1 * S3 + C1 * C3 * S2) * hε
  · simp; linear_combination (C3 * S1 * S2 - C1 * S3) * hε
  · simp; linear_combination (C2 * C3) * hε

/-- Over the reals `euler_to_rmat` undoes `rmat_to_euler` on every matrix that
`euler_to_rmat` produces outside the gimbal band, whatever the angles it was made from. -/
theorem euler_to_rmat_rmat_to_euler (a : Fin 3 → ℝ)
    (hb : |euler_to_rmat realLibm a 0 2| ≤ 1 - 2e-4) :
    euler_to_rmat realLibm (fun i => rmat_to_euler realLibm (euler_to_rmat realLibm a) i 0 * r2d)
      = euler_to_rmat realLibm a := by
  have e02 : euler_to_rmat realLibm a 0 2 = -Real.sin (a 1 * pi / 180) := by
    rw [euler_to_rmat_eq]; rfl
  have e01 : euler_to_rmat realLibm a 0 1
      = Real.cos (a 1 * pi / 180) * Real.sin (a 0 * pi / 180) := by
    rw [euler_to_rmat_eq]; rfl
  have e00 : euler_to_rmat realLibm a 0 0
      = Real.cos (a 1 * pi / 180) * Real.cos (a 0 * pi / 180) := by
    rw [euler_to_rmat_eq]; exact mul_comm _ _
  have e12 : euler_to_rmat realLibm a 1 2
      = Real.cos (a 1 * pi / 180) * Real.sin (a 2 * pi / 180) := by
    rw [euler_to_rmat_eq]; rfl
  have e22 : euler_to_rmat realLibm a 2 2
      = Real.cos (a 1 * pi / 180) * Real.cos (a 2 * pi / 180) := by
    rw [euler_to_rmat_eq]; rfl
  obtain ⟨hb1, hb2⟩ := abs_le.mp hb
  have hX := rmat_to_euler_mid realLibm _ hb2 hb1
  rw [e01, e00, e02, e12, e22, realLibm_asin, neg_neg] at hX
  rw [e02] at hb1 hb2
  have hk : Real.cos (a 1 * pi / 180) ≠ 0 := by
    intro h0
    have h := Real.sin_sq_add_cos_sq (a 1 * pi / 180)
    rw [h0] at h
    nlinarith
  have habs : |Real.cos (a 1 * pi / 180)| ≠ 0 := abs_ne_zero.mpr hk
  have hε : Real.cos (a 1 * pi / 180) / |Real.cos (a 1 * pi / 180)|
      * (Real.cos (a 1 * pi / 180) / |Real.cos (a 1 * pi / 180)|) = 1 := by
    rw [div_mul_div_comm, abs_mul_abs_self]
    exact div_self (mul_ne_zero hk hk)
  rw [hX]
  refine euler_to_rmat_of_signs _ a _ hε ?_ ?_ ?_ ?_ ?_ ?_
  · show Real.cos (realLibm.atan2 _ _ * r2d * pi / 180) = _
    rw [mul_r2d]
    exact (atan2_cos_sin _ _ hk).1
  · show Real.sin (realLibm.atan2 _ _ * r2d * pi / 180) = _
    rw [mul_r2d]
    exact (atan2_cos_sin _ _ hk).2
  · show Real.cos (Real.arcsin _ * r2d * pi / 180) = _
    rw [mul_r2d, Real.cos_arcsin, ← Real.cos_sq', Real.sqrt_sq_eq_abs, div_mul_eq_mul_div,
      eq_div_iff habs, abs_mul_abs_self]
  · show Real.sin (Real.arcsin _ * r2d * pi / 180) = _
    rw [mul_r2d, Real.sin_arcsin (Real.neg_one_le_sin _) (Real.sin_le_one _)]
  · show Real.cos (realLibm.atan2 _ _ * r2d * pi / 180) = _
    rw [mul_r2d]
    exact (atan2_cos_sin _ _ hk).1
  · show Real.sin (realLibm.atan2 _ _ * r2d * pi / 180) = _
    rw [mul_r2d]
    exact (atan2_cos_sin _ _ hk).2

/-- The cosine of 90 degrees, taken to radians with the constant `pi`, lies between `0` and
`1e-6`. -/
theorem cos_ninety :
    (0 : ℝ) ≤ Real.cos (90 * pi / 180) ∧ Real.cos (90 * pi / 180) ≤ 1e-6 := by
  have h1 := Real.pi_gt_d20
  have h2 := Real.pi_lt_d6
  have e : Real.cos (90 * pi / 180) = Real.sin (Real.pi / 2 - 90 * pi / 180) := by
    rw [Real.sin_pi_div_two_sub]
  have hd1 : 0 ≤ Real.pi / 2 - 90 * (pi : ℝ) / 180 := by unfold pi; norm_num; linarith
  have hd2 : Real.pi / 2 - 90 * (pi : ℝ) / 180 ≤ 1e-6 := by unfold pi; norm_num; linarith
  rw [e]
  exact ⟨Real.sin_nonneg_of_nonneg_of_le_pi hd1 (by linarith), (Real.sin_le hd1).trans hd2⟩

/-- Sine and cosine of 89.1 degrees, taken to radians with the constant `pi`: the sine
exceeds the bound `1 - 2e-4` of the gimbal band. -/
theorem near_ninety :
    (1 : ℝ) - 2e-4 < Real.sin (89.1 * pi / 180) ∧ Real.sin (89.1 * pi / 180) ≤ 1 ∧
    0 ≤ Real.cos (89.1 * pi / 180) ∧ Real.cos (89.1 * pi / 180) ≤ 0.016 := by
  have h1 := Real.pi_gt_d6
  have h2 := Real.pi_lt_d6
  have es : Real.sin (89.1 * pi / 180) = Real.cos (Real.pi / 2 - 89.1 * pi / 180) := by
    rw [Real.cos_pi_div_two_sub]
  have ec : Real.cos (89.1 * pi / 180) = Real.sin (Real.pi / 2 - 89.1 * pi / 180) := by
    rw [Real.sin_pi_div_two_sub]
  have hb := Real.one_sub_sq_div_two_le_cos (x := Real.pi / 2 - 89.1 * pi / 180)
  have hd1 : 0 ≤ Real.pi / 2 - 89.1 * (pi : ℝ) / 180 := by unfold pi; norm_num; linarith
  have hd2 : Real.pi / 2 - 89.1 * (pi : ℝ) / 180 ≤ 0.0158 := by unfold pi; norm_num; linarith
  refine ⟨?_, Real.sin_le_one _, ?_, ?_⟩
  · rw [es]; nlinarith
  · rw [ec]; exact Real.sin_nonneg_of_nonneg_of_le_pi hd1 (by linarith)
  · rw [ec]; exact ((Real.sin_le hd1).trans hd2).trans (by norm_num)

/-- The matrix of the angles `(0, 89.1, 0)`, entry by entry. -/
theorem euler_to_rmat_near_ninety (i j : Fin 3) :
    euler_to_rmat realLibm ![0, 89.1, 0] i j =
      ![![Real.cos (89.1 * pi / 180), 0, -Real.sin (89.1 * pi / 180)],
        ![0, 1, 0],
        ![Real.sin (89.1 * pi / 180), 0, Real.cos (89.1 * pi / 180)]] i j := by
  rw [euler_to_rmat_eq]
  fin_cases i <;> fin_cases j <;> simp [realLibm_sin, realLibm_cos]

/-- The first row of the matrix of the angles `(0, -90, 0)`. -/
theorem euler_to_rmat_minus_ninety (j : Fin 3) :
    euler_to_rmat realLibm ![0, -90, 0] 0 j =
      ![Real.cos (90 * pi / 180), 0, Real.sin (90 * pi / 180)] j := by
  rw [euler_to_rmat_eq]
  fin_cases j
  · simp [realLibm_sin, realLibm_cos]
    rw [neg_div, Real.cos_neg]
  · simp [realLibm_sin, realLibm_cos]
  · simp [realLibm_sin, realLibm_cos]
    rw [neg_div, Real.sin_neg, neg_neg]

/-- In the gimbal band the stored reference is not reproduced: the matrix of the angles
`(0, 89.1, 0)` has the angles `(0, -90, 0)`. -/
theorem rmat_to_euler_near_ninety :
    (fun i : Fin 3 => rmat_to_euler realLibm (euler_to_rmat realLibm ![0, 89.1, 0]) i 0 * r2d)
      = ![0, -90, 0] := by
  obtain ⟨n1, n2, n3, n4⟩ := near_ninety
  have h2 : euler_to_rmat realLibm ![0, 89.1, 0] 0 2 < -(1 - 2e-4) := by
    rw [euler_to_rmat_near_ninety]
    show -Real.sin (89.1 * pi / 180) < _
    linarith
  have h1 : ¬ euler_to_rmat realLibm ![0, 89.1, 0] 0 2 > 1 - 2e-4 := by
    intro h; norm_num at h h2; linarith
  have hs : Real.sin (89.1 * pi / 180) ≠ 0 := by
    intro h; rw [h] at n1; norm_num at n1
  have e10 : euler_to_rmat realLibm ![0, 89.1, 0] 1 0 = 0 := by
    rw [euler_to_rmat_near_ninety]; rfl
  have e20 : euler_to_rmat realLibm ![0, 89.1, 0] 2 0 = Real.sin (89.1 * pi / 180) := by
    rw [euler_to_rmat_near_ninety]; rfl
  rw [rmat_to_euler_lo _ _ h1 h2, e10, e20, realLibm_atan_div 0 hs, zero_div, Real.arctan_zero]
  funext i
  rw [col_apply]
  fin_cases i
  · show (0 : ℝ) * r2d = 0
    exact zero_mul _
  · show -((90 : ℝ) * pi / 180) * r2d = -90
    rw [neg_mul, r2d_mul]
  · show (0 : ℝ) * r2d = 0
    exact zero_mul _

/-- The plain tracker centred on the sample `a`: the flags, the reference it stored, its
configuration and what it has sent. -/
theorem centredAt_reference (a : Pose ℝ) :
    (centredAt realLibm a).centerp = false ∧ (centredAt realLibm a).zero_ = false ∧
    (centredAt realLibm a).r_b = euler_to_rmat realLibm (rotPtr a) ∧
    (centredAt realLibm a).t_b = (fun i => a ⟨i.val, by have := i.isLt; omega⟩) ∧
    (centredAt realLibm a).Plain ∧ (centredAt realLibm a).sent = [0] := by
  have p0 : (centreRequest a : Tracker ℝ).Plain :=
    ⟨rfl, rfl, fun i => ⟨rfl, rfl, rfl, fun _ => rfl, fun _ => rfl⟩⟩
  obtain ⟨c1, c2, c3⟩ := logic_center realLibm (centreRequest a : Tracker ℝ) rfl
  obtain ⟨g1, -⟩ := logic_config realLibm (centreRequest a : Tracker ℝ)
  have hs := (logic_plain realLibm (centreRequest a : Tracker ℝ) p0).2
  rw [postDelta_centering _ rfl] at hs
  exact ⟨c1, g1, c2, c3, logic_Plain _ _ p0, hs⟩

/-- With zero engaged and a reference rotation that is the matrix of some angles and lies
outside the gimbal band, the post-delta pose is all-zero, with or without a centre request
and whatever the sample. -/
theorem postDelta_zero_engaged (t : Tracker ℝ) (a : Fin 3 → ℝ) (hz : t.zero_ = true)
    (hr : t.r_b = euler_to_rmat realLibm a) (hb : |t.r_b 0 2| ≤ 1 - 2e-4) :
    t.postDelta realLibm = 0 := by
  obtain ⟨l1, l2, -⟩ := load_zero realLibm t hz
  have hrt : euler_to_rmat realLibm (fun i => rmat_to_euler realLibm t.r_b i 0 * r2d)
      = t.r_b := by
    rw [hr] at hb ⊢
    exact euler_to_rmat_rmat_to_euler a hb
  have hr2 : t.r_b = euler_to_rmat realLibm (rotPtr (t.load realLibm).1) := by rw [l2, hrt]
  by_cases hc : t.centerp = true
  · exact postDelta_centering t hc
  · have hcen : t.center realLibm (t.load realLibm).1 = t := by simp [Tracker.center, hc]
    show (t.center realLibm (t.load realLibm).1).delta realLibm (t.load realLibm).1 = _
    rw [hcen, delta_same_rotation _ _ hr2]
    funext i
    by_cases h : i.val < 3
    · simp only [h, dite_true]
      rw [← l1 ⟨i.val, h⟩]
      simp
    · simp [h]

/-- The matrix of angles with pitch 90 lies below the gimbal band, whatever yaw and roll, and
`rmat_to_euler` returns yaw `0` and pitch `-90` degrees for it. -/
theorem pitch_ninety (yaw roll : ℝ) :
    euler_to_rmat realLibm ![yaw, 90, roll] 0 2 < -(1 - 2e-4) ∧
    rmat_to_euler realLibm (euler_to_rmat realLibm ![yaw, 90, roll]) 0 0 = 0 ∧
    rmat_to_euler realLibm (euler_to_rmat realLibm ![yaw, 90, roll]) 1 0 * r2d = -90 := by
  obtain ⟨s1, -⟩ := sin_ninety
  have e02 : euler_to_rmat realLibm ![yaw, 90, roll] 0 2 = -Real.sin (90 * pi / 180) := by
    rw [euler_to_rmat_eq]; rfl
  have h2 : euler_to_rmat realLibm ![yaw, 90, roll] 0 2 < -(1 - 2e-4) := by
    rw [e02]; norm_num at s1 ⊢; linarith
  have h1 : ¬ euler_to_rmat realLibm ![yaw, 90, roll] 0 2 > 1 - 2e-4 := by
    intro h; norm_num at h h2; linarith
  refine ⟨h2, ?_, ?_⟩
  · rw [rmat_to_euler_lo _ _ h1 h2]; rfl
  · rw [rmat_to_euler_lo _ _ h1 h2]
    show -((90 : ℝ) * pi / 180) * r2d = -90
    rw [neg_mul, r2d_mul]

/-- No matrix of angles with pitch 90 or -90 is the matrix of the angles `(0, 89.1, 0)`:
whichever saturated pitch is read back for that matrix, it does not reproduce it. -/
theorem saturated_pitch_misses (yaw roll : ℝ) :
    euler_to_rmat realLibm ![yaw, 90, roll] ≠ euler_to_rmat realLibm ![0, 89.1, 0] ∧
    euler_to_rmat realLibm ![yaw, -90, roll] ≠ euler_to_rmat realLibm ![0, 89.1, 0] := by
  obtain ⟨hpi, -⟩ := pi_lt_real_pi
  obtain ⟨n1, -, -, -⟩ := near_ninety
  obtain ⟨s1, -⟩ := sin_ninety
  have e1 : euler_to_rmat realLibm ![yaw, 90, roll] 0 2 = -Real.sin (90 * pi / 180) := by
    rw [euler_to_rmat_eq]; rfl
  have e2 : euler_to_rmat realLibm ![yaw, -90, roll] 0 2 = -Real.sin (-90 * pi / 180) := by
    rw [euler_to_rmat_eq]; rfl
  have e3 : euler_to_rmat realLibm ![0, 89.1, 0] 0 2 = -Real.sin (89.1 * pi / 180) := by
    rw [euler_to_rmat_near_ninety]; rfl
  have hlt : Real.sin (89.1 * pi / 180) < Real.sin (90 * pi / 180) := by
    apply Real.sin_lt_sin_of_lt_of_le_pi_div_two
    · have : (0 : ℝ) ≤ 89.1 * pi / 180 := by unfold pi; norm_num
      linarith [Real.pi_pos]
    · have : (90 : ℝ) * pi / 180 = pi / 2 := by ring
      rw [this]; linarith
    · unfold pi; norm_num
  have hneg : (-90 : ℝ) * pi / 180 = -(90 * pi / 180) := by ring
  constructor
  · intro h
    have h02 := congrFun (congrFun h 0) 2
    rw [e1, e3] at h02
    linarith
  · intro h
    have h02 := congrFun (congrFun h 0) 2
    rw [e2, e3, hneg, Real.sin_neg] at h02
    norm_num at n1 s1
    linarith

/-! ## C1: the conversion round trip -/

/-- C1. For every yaw and roll strictly between -180 and 180 degrees and every pitch strictly
between -90 and 90 degrees whose matrix lies outside the gimbal band, `|R(0,2)| ≤ 1 - 2e-4`,
`rmat_to_euler` of `euler_to_rmat` of the angles, taken from radians back to degrees with the
factor `r2d` of `logic`, is the triple of the angles, exactly over the reals. -/
theorem C1_round_trip (yaw pitch roll : ℝ) (hy : -180 < yaw ∧ yaw < 180)
    (hp : -90 < pitch ∧ pitch < 90) (hr : -180 < roll ∧ roll < 180)
    (hb : |euler_to_rmat realLibm ![yaw, pitch, roll] 0 2| ≤ 1 - 2e-4) :
    (fun i : Fin 3 =>
        rmat_to_euler realLibm (euler_to_rmat realLibm ![yaw, pitch, roll]) i 0 * r2d)
      = ![yaw, pitch, roll] :=
  rmat_to_euler_euler_to_rmat ![yaw, pitch, roll] hy hp hr hb

/-- C1 at the angles `(40, 50, 60)`, whose matrix lies outside the gimbal band. -/
theorem C1_round_trip_witness :
    ((-180 : ℝ) < 40 ∧ (40 : ℝ) < 180) ∧ ((-90 : ℝ) < 50 ∧ (50 : ℝ) < 90) ∧
    ((-180 : ℝ) < 60 ∧ (60 : ℝ) < 180) ∧
    |euler_to_rmat realLibm ![40, 50, 60] 0 2| ≤ 1 - 2e-4 ∧
    (fun i : Fin 3 => rmat_to_euler realLibm (euler_to_rmat realLibm ![40, 50, 60]) i 0 * r2d)
      = ![40, 50, 60] :=
  ⟨by norm_num, by norm_num, by norm_num, band_40_50_60,
    C1_round_trip 40 50 60 (by norm_num) (by norm_num) (by norm_num) band_40_50_60⟩

/-! ## C2: centring re-anchors the pose -/

/-- C2. Let `logic` serve a centre request on a cycle whose working pose is `a`, zero not
engaged. On that cycle the post-delta pose is all-zero. After any number of later cycles
without a centre request, a cycle with zero not engaged on a sample `b` that has the rotation
angles of `a` has post-delta rotation `(0, 0, 0)` and post-delta translation `b.xyz - a.xyz`.
With the plain configuration, centring at `(10,0,0,0,0,0)` outputs the all-zero pose, the same
sample again outputs the all-zero pose, and `(15,0,0,0,0,0)` then outputs `(5,0,0,0,0,0)`. -/
theorem C2_center_reanchors (t : Tracker ℝ) (a : Pose ℝ) (hc : t.centerp = true)
    (hz : t.zero_ = false) (ha : t.newpose = a) :
    t.postDelta realLibm = 0 ∧
    (∀ (es : List (CycleEnv ℝ)) (b : Pose ℝ), rotPtr b = rotPtr a →
      Tracker.postDelta realLibm
        { es.foldl (Tracker.runCycle realLibm) (t.logic realLibm) with
          zero_ := false, newpose := b }
        = ![b 0 - a 0, b 1 - a 1, b 2 - a 2, 0, 0, 0]) ∧
    (let t0 : Tracker ℝ := { plainTracker with centerp := true, newpose := ![10, 0, 0, 0, 0, 0] }
     let t1 := t0.logic realLibm
     let t2 := t1.cycle realLibm ![10, 0, 0, 0, 0, 0]
     let t3 := t2.cycle realLibm ![15, 0, 0, 0, 0, 0]
     t1.output_pose = 0 ∧ t2.output_pose = 0 ∧ t3.output_pose = ![5, 0, 0, 0, 0, 0] ∧
       t3.sent = [0, 0, ![5, 0, 0, 0, 0, 0]]) := by
  have hload : (t.load realLibm).1 = a := by simp [Tracker.load, hz, ← ha]
  obtain ⟨l1, l2, l3⟩ := logic_center realLibm t hc
  rw [hload] at l2 l3
  refine ⟨postDelta_centering t hc, ?_, ?_⟩
  · intro es b hb
    obtain ⟨f1, f2, f3⟩ := runCycle_frame realLibm es (t.logic realLibm) l1
    generalize es.foldl (Tracker.runCycle realLibm) (t.logic realLibm) = u0 at f1 f2 f3
    have key := postDelta_anchored { u0 with zero_ := false, newpose := b } f1 rfl
      (by show u0.r_b = euler_to_rmat realLibm (rotPtr b); rw [f2, l2, hb])
    rw [key]
    funext i
    show (if h : i.val < 3 then b i - u0.t_b ⟨i.val, h⟩ else 0) = _
    rw [f3, l3]
    fin_cases i <;> rfl
  · have p0 : (plainTracker : Tracker ℝ).Plain :=
      ⟨rfl, rfl, fun i => ⟨rfl, rfl, rfl, fun _ => rfl, fun _ => rfl⟩⟩
    intro t0 t1 t2 t3
    have q0 : t0.Plain := p0
    have q1 : t1.Plain := logic_Plain _ _ q0
    have e1 := logic_plain realLibm t0 q0
    rw [postDelta_centering t0 rfl] at e1
    obtain ⟨c1, c2, c3⟩ := logic_center realLibm t0 rfl
    obtain ⟨g1, g2, -, -, -, -⟩ := logic_config realLibm t0
    have hl0 : (t0.load realLibm).1 = (![10, 0, 0, 0, 0, 0] : Pose ℝ) := rfl
    rw [hl0] at c2 c3
    have hrot2 : rotPtr (![10, 0, 0, 0, 0, 0] : Pose ℝ) = rotPtr (![15, 0, 0, 0, 0, 0] : Pose ℝ) := by
      funext i; fin_cases i <;> rfl
    obtain ⟨a1, a2, a3, a4, a5, a6, a7, a8⟩ :=
      cycle_plain_anchored t1 ![10, 0, 0, 0, 0, 0] q1 (by rw [g2]; rfl) c1 (by rw [g1]; rfl)
        (by rw [c2])
    obtain ⟨b1, b2, -⟩ :=
      cycle_plain_anchored t2 ![15, 0, 0, 0, 0, 0] a3 a4 a5 a6 (by rw [a7, c2, hrot2])
    have z2 : (fun i : Fin 6 => if h : i.val < 3 then (![10, 0, 0, 0, 0, 0] : Pose ℝ) i
        - t1.t_b ⟨i.val, h⟩ else 0) = 0 := by
      rw [c3]; funext i; fin_cases i <;> simp
    have z3 : (fun i : Fin 6 => if h : i.val < 3 then (![15, 0, 0, 0, 0, 0] : Pose ℝ) i
        - t2.t_b ⟨i.val, h⟩ else 0) = ![5, 0, 0, 0, 0, 0] := by
      rw [a8, c3]; funext i; fin_cases i <;> simp <;> first | rfl | norm_num
    rw [z2] at a1 a2
    rw [z3] at b1 b2
    refine ⟨e1.1, a1, b1, ?_⟩
    rw [b2, a2, e1.2]
    rfl


/-- C2 at a concrete input: centring at `(1,2,3,40,50,60)`, then the sample
`(4,5,6,40,50,60)`. -/
theorem C2_center_reanchors_witness :
    (({ plainTracker with centerp := true, newpose := ![1, 2, 3, 40, 50, 60] } :
        Tracker ℝ).centerp = true ∧
      ({ plainTracker with centerp := true, newpose := ![1, 2, 3, 40, 50, 60] } :
        Tracker ℝ).zero_ = false) ∧
    Tracker.postDelta realLibm
      { Tracker.logic realLibm
          ({ plainTracker with centerp := true, newpose := ![1, 2, 3, 40, 50, 60] } : Tracker ℝ)
        with zero_ := false, newpose := ![4, 5, 6, 40, 50, 60] }
      = ![4 - 1, 5 - 2, 6 - 3, 0, 0, 0] :=
  ⟨⟨rfl, rfl⟩,
    (C2_center_reanchors
      ({ plainTracker with centerp := true, newpose := ![1, 2, 3, 40, 50, 60] } : Tracker ℝ)
      ![1, 2, 3, 40, 50, 60] rfl rfl rfl).2.1 [] ![4, 5, 6, 40, 50, 60]
      (by funext i; fin_cases i <;> rfl)⟩




/-! ## C3: zero freeze -/

/-- C3 fails as stated: centre the plain tracker on the sample `(0,0,0,0,89.1,0)`, whose
matrix lies in the gimbal band, then engage zero. The stored reference is read back with the
saturated pitch, as the angles `(0,-90,0)`, and the next cycle has the post-delta yaw
`π * r2d`, above 180 degrees, which it publishes. No saturated pitch, 90 or -90, with
whatever yaw and roll, has the matrix of the reference. -/
theorem C3_zero_freeze_counterexample :
    euler_to_rmat realLibm ![0, 89.1, 0] 0 2 < -(1 - 2e-4) ∧
    Tracker.postDelta realLibm
        { centredAt realLibm ![0, 0, 0, 0, 89.1, 0] with zero_ := true } 3 = Real.pi * r2d ∧
    Tracker.postDelta realLibm
        { centredAt realLibm ![0, 0, 0, 0, 89.1, 0] with zero_ := true } ≠ 0 ∧
    (Tracker.logic realLibm
        { centredAt realLibm ![0, 0, 0, 0, 89.1, 0] with zero_ := true }).output_pose 3
          = Real.pi * r2d ∧
    180 < (Tracker.logic realLibm
        { centredAt realLibm ![0, 0, 0, 0, 89.1, 0] with zero_ := true }).output_pose 3 ∧
    (∀ yaw roll : ℝ,
      euler_to_rmat realLibm ![yaw, 90, roll] ≠ euler_to_rmat realLibm ![0, 89.1, 0] ∧
      euler_to_rmat realLibm ![yaw, -90, roll] ≠ euler_to_rmat realLibm ![0, 89.1, 0]) := by
  obtain ⟨n1, n2, n3, n4⟩ := near_ninety
  obtain ⟨g1, g2⟩ := cos_ninety
  obtain ⟨s1, s2⟩ := sin_ninety
  have p0 : (plainTracker : Tracker ℝ).Plain :=
    ⟨rfl, rfl, fun i => ⟨rfl, rfl, rfl, fun _ => rfl, fun _ => rfl⟩⟩
  obtain ⟨c1, c2, c3⟩ := logic_center realLibm
    (centreRequest ![0, 0, 0, 0, 89.1, 0] : Tracker ℝ) rfl
  have hl0 : (Tracker.load realLibm (centreRequest ![0, 0, 0, 0, 89.1, 0] : Tracker ℝ)).1
      = (![0, 0, 0, 0, 89.1, 0] : Pose ℝ) := rfl
  have hrot : rotPtr (![0, 0, 0, 0, 89.1, 0] : Pose ℝ) = ![0, 89.1, 0] := by
    funext i; fin_cases i <;> rfl
  rw [hl0, hrot] at c2
  have q1 : (centredAt realLibm (![0, 0, 0, 0, 89.1, 0] : Pose ℝ)).Plain := logic_Plain _ _ p0
  have hband : euler_to_rmat realLibm ![0, 89.1, 0] 0 2 < -(1 - 2e-4) := by
    rw [euler_to_rmat_near_ninety]
    show -Real.sin (89.1 * pi / 180) < _
    linarith
  generalize hu : ({ centredAt realLibm (![0, 0, 0, 0, 89.1, 0] : Pose ℝ) with zero_ := true }
    : Tracker ℝ) = u
  have u1 : u.Plain := by subst hu; exact q1
  have u2 : u.centerp = false := by subst hu; exact c1
  have u3 : u.r_b = euler_to_rmat realLibm ![0, 89.1, 0] := by subst hu; exact c2
  have u5 : u.zero_ = true := by subst hu; rfl
  obtain ⟨-, l2, -⟩ := load_zero realLibm u u5
  rw [u3, rmat_to_euler_near_ninety] at l2
  have hcen : u.center realLibm (u.load realLibm).1 = u := by simp [Tracker.center, u2]
  have m00 : (euler_to_rmat realLibm ![0, -90, 0]
      * (euler_to_rmat realLibm ![0, 89.1, 0]).transpose) 0 0
      = Real.cos (90 * pi / 180) * Real.cos (89.1 * pi / 180)
        - Real.sin (90 * pi / 180) * Real.sin (89.1 * pi / 180) := by
    simp only [Matrix.mul_apply, Fin.sum_univ_three, Matrix.transpose_apply,
      euler_to_rmat_near_ninety, euler_to_rmat_minus_ninety]
    simp
    ring
  have m01 : (euler_to_rmat realLibm ![0, -90, 0]
      * (euler_to_rmat realLibm ![0, 89.1, 0]).transpose) 0 1 = 0 := by
    simp only [Matrix.mul_apply, Fin.sum_univ_three, Matrix.transpose_apply,
      euler_to_rmat_near_ninety, euler_to_rmat_minus_ninety]
    simp
  have m02 : (euler_to_rmat realLibm ![0, -90, 0]
      * (euler_to_rmat realLibm ![0, 89.1, 0]).transpose) 0 2
      = Real.cos (90 * pi / 180) * Real.sin (89.1 * pi / 180)
        + Real.sin (90 * pi / 180) * Real.cos (89.1 * pi / 180) := by
    simp only [Matrix.mul_apply, Fin.sum_univ_three, Matrix.transpose_apply,
      euler_to_rmat_near_ninety, euler_to_rmat_minus_ninety]
    simp
  have hneg : Real.cos (90 * pi / 180) * Real.cos (89.1 * pi / 180)
      - Real.sin (90 * pi / 180) * Real.sin (89.1 * pi / 180) < 0 := by
    norm_num at n1 n4 g2 s1
    nlinarith
  have hmid1 : (euler_to_rmat realLibm ![0, -90, 0]
      * (euler_to_rmat realLibm ![0, 89.1, 0]).transpose) 0 2 ≤ 1 - 2e-4 := by
    rw [m02]
    norm_num at n1 n4 g2 s1 ⊢
    nlinarith
  have hmid2 : -(1 - 2e-4) ≤ (euler_to_rmat realLibm ![0, -90, 0]
      * (euler_to_rmat realLibm ![0, 89.1, 0]).transpose) 0 2 := by
    rw [m02]
    have : 0 ≤ Real.cos (90 * pi / 180) * Real.sin (89.1 * pi / 180)
        + Real.sin (90 * pi / 180) * Real.cos (89.1 * pi / 180) := by
      have hs : 0 ≤ Real.sin (89.1 * pi / 180) := by norm_num at n1; linarith
      have hs90 : 0 ≤ Real.sin (90 * pi / 180) := by norm_num at s1; linarith
      positivity
    norm_num
    linarith
  have key : u.postDelta realLibm 3 = Real.pi * r2d := by
    show (u.center realLibm (u.load realLibm).1).delta realLibm (u.load realLibm).1 3 = _
    rw [hcen]
    unfold Tracker.delta
    simp only [l2, u3]
    rw [rmat_to_euler_mid _ _ hmid1 hmid2, m01, m00, realLibm_atan2_neg hneg]
    rfl
  have hpos : (180 : ℝ) < Real.pi * r2d := by
    have := pi_lt_real_pi.1
    have hp : (0 : ℝ) < pi := by unfold pi; norm_num
    unfold r2d
    rw [mul_div_assoc', lt_div_iff₀ hp]
    linarith
  have out := (logic_plain realLibm u u1).1
  refine ⟨hband, key, ?_, ?_, ?_, saturated_pitch_misses⟩
  · intro h
    have h3 := congrFun h 3
    rw [key] at h3
    have : (0 : Pose ℝ) 3 = 0 := rfl
    rw [this] at h3
    linarith
  · rw [out, key]
  · rw [out, key]; exact hpos

/-- C3 as amended. Let zero be engaged and let the reference rotation be the matrix of some
angles, as every reference that a centre request stores is, and lie outside the gimbal band,
`|r_b(0,2)| ≤ 1 - 2e-4`. Then the post-delta pose of the cycle is all-zero and the cycle
leaves the reference as it is, with or without a centre request, whatever the sample. With
identity curves, zero offsets and no filter the published and the sent pose are the
origin. -/
theorem C3_zero_freeze_amended (t : Tracker ℝ) (a : Fin 3 → ℝ) (hz : t.zero_ = true)
    (hr : t.r_b = euler_to_rmat realLibm a) (hb : |t.r_b 0 2| ≤ 1 - 2e-4) :
    t.postDelta realLibm = 0 ∧
    ((t.logic realLibm).r_b = t.r_b ∧ (t.logic realLibm).t_b = t.t_b) ∧
    (t.pFilter = none →
      (∀ i, (t.m i).opts.zero = 0 ∧ (∀ x, (t.m i).curve.getValue x = x) ∧
        (∀ x, (t.m i).curveAlt.getValue x = x)) →
      (t.logic realLibm).output_pose = 0 ∧ (t.logic realLibm).sent = t.sent ++ [0]) := by
  obtain ⟨l1, l2, -⟩ := load_zero realLibm t hz
  have hrt : euler_to_rmat realLibm (fun i => rmat_to_euler realLibm t.r_b i 0 * r2d)
      = t.r_b := by
    rw [hr] at hb ⊢
    exact euler_to_rmat_rmat_to_euler a hb
  have hr2 : t.r_b = euler_to_rmat realLibm (rotPtr (t.load realLibm).1) := by rw [l2, hrt]
  have ht : t.t_b = fun i => (t.load realLibm).1 ⟨i.val, by have := i.isLt; omega⟩ := by
    funext i; exact (l1 i).symm
  have hpd : t.postDelta realLibm = 0 := postDelta_zero_engaged t a hz hr hb
  refine ⟨hpd, ?_, ?_⟩
  · by_cases hc : t.centerp = true
    · obtain ⟨-, c2, c3⟩ := logic_center realLibm t hc
      exact ⟨c2.trans hr2.symm, c3.trans ht.symm⟩
    · obtain ⟨-, f2, f3⟩ := logic_frame realLibm t (by simpa using hc)
      exact ⟨f2, f3⟩
  · intro hf hm
    obtain ⟨o1, o2⟩ := logic_output realLibm t
    have key : (t.logic realLibm).output_pose = 0 := by
      rw [o1]
      funext i
      have hpc : t.postCompensation realLibm = 0 := by
        unfold Tracker.postCompensation Tracker.postFilter Tracker.postMap
        rw [hpd, hf, mapLoop_zero _ _ hm, compensateStage_zero]
      rw [hpc]
      simp
    exact ⟨key, by rw [o2, key]⟩

/-- C3 as amended, on the plain tracker centred on the sample `(1,2,3,40,50,60)` with zero
engaged: the reference is the matrix of the angles `(40,50,60)`, outside the gimbal band,
and the cycle has an all-zero post-delta pose and publishes the origin. -/
theorem C3_zero_freeze_amended_witness :
    (({ centredAt realLibm ![1, 2, 3, 40, 50, 60] with zero_ := true } : Tracker ℝ).zero_
        = true ∧
      ({ centredAt realLibm ![1, 2, 3, 40, 50, 60] with zero_ := true } : Tracker ℝ).r_b
        = euler_to_rmat realLibm ![40, 50, 60] ∧
      |({ centredAt realLibm ![1, 2, 3, 40, 50, 60] with zero_ := true } : Tracker ℝ).r_b 0 2|
        ≤ 1 - 2e-4) ∧
    Tracker.postDelta realLibm
      ({ centredAt realLibm ![1, 2, 3, 40, 50, 60] with zero_ := true } : Tracker ℝ) = 0 ∧
    (Tracker.logic realLibm
      ({ centredAt realLibm ![1, 2, 3, 40, 50, 60] with zero_ := true } : Tracker ℝ)).output_pose
        = 0 := by
  obtain ⟨-, -, c2, -, c4, -⟩ := centredAt_reference ![1, 2, 3, 40, 50, 60]
  have hrot : rotPtr (![1, 2, 3, 40, 50, 60] : Pose ℝ) = ![40, 50, 60] := by
    funext i; fin_cases i <;> rfl
  rw [hrot] at c2
  have hb : |({ centredAt realLibm ![1, 2, 3, 40, 50, 60] with zero_ := true }
      : Tracker ℝ).r_b 0 2| ≤ 1 - 2e-4 := by
    show |(centredAt realLibm ![1, 2, 3, 40, 50, 60]).r_b 0 2| ≤ _
    rw [c2]; exact band_40_50_60
  have h := C3_zero_freeze_amended
    ({ centredAt realLibm ![1, 2, 3, 40, 50, 60] with zero_ := true } : Tracker ℝ)
    ![40, 50, 60] rfl c2 hb
  exact ⟨⟨rfl, c2, hb⟩, h.1,
    (h.2.2 c4.1 (fun i => ⟨(c4.2.2 i).2.1, (c4.2.2 i).2.2.2.1, (c4.2.2 i).2.2.2.2⟩)).1⟩

/-! ## C4: the gimbal boundary -/

/-- C4, evaluated at pitch 90. For every yaw and roll the matrix of the angles
`(yaw, 90, roll)` lies below the gimbal band, `R(0,2) < -(1 - 2e-4)`, `rmat_to_euler` takes
the second gimbal branch and the pitch it returns is -90 in degrees, not +90. So it is with
yaw 180 and roll 0, and with yaw 0 and roll 0. -/
theorem C4_gimbal_pitch_is_minus_ninety :
    (∀ yaw roll : ℝ,
      euler_to_rmat realLibm ![yaw, 90, roll] 0 2 < -(1 - 2e-4) ∧
      rmat_to_euler realLibm (euler_to_rmat realLibm ![yaw, 90, roll]) 1 0 * r2d = -90) ∧
    (euler_to_rmat realLibm ![180, 90, 0] 0 2 < -(1 - 2e-4) ∧
      rmat_to_euler realLibm (euler_to_rmat realLibm ![180, 90, 0]) 1 0 * r2d = -90) ∧
    (euler_to_rmat realLibm ![0, 90, 0] 0 2 < -(1 - 2e-4) ∧
      rmat_to_euler realLibm (euler_to_rmat realLibm ![0, 90, 0]) 1 0 * r2d = -90 ∧
      rmat_to_euler realLibm (euler_to_rmat realLibm ![0, 90, 0]) 1 0 * r2d ≠ 90) := by
  refine ⟨fun yaw roll => ⟨(pitch_ninety yaw roll).1, (pitch_ninety yaw roll).2.2⟩,
    ⟨(pitch_ninety 180 0).1, (pitch_ninety 180 0).2.2⟩,
    (pitch_ninety 0 0).1, (pitch_ninety 0 0).2.2, ?_⟩
  rw [(pitch_ninety 0 0).2.2]
  norm_num

/-! ## C5: the axis remap -/

/-- C5, evaluated on the plain tracker with channel 0 wired to source 1 and the sample
`(1,2,0,0,0,0)`: the pose that enters the axis remap is `(1,2,0,0,0,0)`, and `logic` emits
on channel 0 its own value `1`, not the value `2` of source channel 1. -/
theorem C5_remap_ignores_source_index :
    Tracker.postCompensation realLibm
        (configured (fun _ => false) ![1, 1, 2, 3, 4, 5] ![1, 2, 0, 0, 0, 0])
      = ![1, 2, 0, 0, 0, 0] ∧
    (Tracker.logic realLibm
        (configured (fun _ => false) ![1, 1, 2, 3, 4, 5] ![1, 2, 0, 0, 0, 0])).output_pose 0
      = 1 ∧
    (Tracker.logic realLibm
        (configured (fun _ => false) ![1, 1, 2, 3, 4, 5] ![1, 2, 0, 0, 0, 0])).output_pose 0
      ≠ Tracker.postCompensation realLibm
        (configured (fun _ => false) ![1, 1, 2, 3, 4, 5] ![1, 2, 0, 0, 0, 0]) 1 := by
  generalize hu : (configured (fun _ => false) ![1, 1, 2, 3, 4, 5] ![1, 2, 0, 0, 0, 0]
    : Tracker ℝ) = u
  have hrot : rotPtr (![1, 2, 0, 0, 0, 0] : Pose ℝ) = fun _ => 0 := by
    funext i; fin_cases i <;> rfl
  have u1 : u.centerp = false := by subst hu; rfl
  have u2 : u.zero_ = false := by subst hu; rfl
  have u3 : u.newpose = ![1, 2, 0, 0, 0, 0] := by subst hu; rfl
  have u4 : u.r_b = euler_to_rmat realLibm (rotPtr u.newpose) := by
    rw [u3, hrot, euler_to_rmat_zero]; subst hu; rfl
  have u5 : u.t_b = ![0, 0, 0] := by subst hu; rfl
  have u6 : (u.m 0).opts.src = 1 := by subst hu; rfl
  have pd : u.postDelta realLibm = ![1, 2, 0, 0, 0, 0] := by
    rw [postDelta_anchored u u1 u2 u4, u3, u5]
    funext i
    fin_cases i
    all_goals simp
    all_goals rfl
  have pc : u.postCompensation realLibm = ![1, 2, 0, 0, 0, 0] := by
    rw [postCompensation_of_identity realLibm u (by subst hu; rfl) (by subst hu; rfl)
      (by subst hu; exact fun i => ⟨rfl, rfl, fun _ => rfl, fun _ => rfl⟩), pd]
  have out : (u.logic realLibm).output_pose 0 = 1 := by
    rw [(logic_output realLibm u).1]
    simp [u6, pc]
  refine ⟨pc, out, ?_⟩
  rw [out, pc]
  norm_num

/-! ## C6: axis mute -/

/-- C6. For every sample, calibration state, curves, filter and compensation setting, a
channel `i` whose source index is `< 0` or `≥ 6` carries `0` in the pose that `logic`
publishes to the snapshot, and that pose is the one `logic` sends to the sink. -/
theorem C6_axis_mute (L : Libm α) (t : Tracker α) (i : Fin 6)
    (h : (t.m i).opts.src < 0 ∨ (t.m i).opts.src ≥ 6) :
    (t.logic L).output_pose i = 0 ∧
      (t.logic L).sent = t.sent ++ [(t.logic L).output_pose] := by
  obtain ⟨o1, o2⟩ := logic_output L t
  refine ⟨?_, o2⟩
  rw [o1]
  simp only [h, if_true]

/-- C6 at a concrete input: channel 0 with source index -1, sample `(1,2,3,4,5,6)`. -/
theorem C6_axis_mute_witness :
    (((configured (fun _ => false) ![-1, 1, 2, 3, 4, 6] ![1, 2, 3, 4, 5, 6] :
        Tracker ℝ).m 0).opts.src < 0 ∨
      ((configured (fun _ => false) ![-1, 1, 2, 3, 4, 6] ![1, 2, 3, 4, 5, 6] :
        Tracker ℝ).m 0).opts.src ≥ 6) ∧
    (Tracker.logic realLibm
      (configured (fun _ => false) ![-1, 1, 2, 3, 4, 6] ![1, 2, 3, 4, 5, 6])).output_pose 0
      = 0 :=
  ⟨Or.inl (by decide),
    (C6_axis_mute realLibm
      (configured (fun _ => false) ![-1, 1, 2, 3, 4, 6] ![1, 2, 3, 4, 5, 6]) 0
      (Or.inl (by decide))).1⟩

/-! ## C7: the invert sign law -/

/-- C7. Without filter and without compensation, every source index in `[0,6)`, the output
of `logic` on channel `i` is `-mapped[i]` when the invert flag of channel `i` is set and
`mapped[i]` otherwise, `mapped[i]` being what `Tracker::map` returned for channel `i` on that
cycle. This holds for all curves and zero offsets, identity curves and zero offsets `0`
among them. -/
theorem C7_invert_sign_law (L : Libm α) (t : Tracker α) (hf : t.pFilter = none)
    (hc : t.s.tcomp_p = false)
    (hsrc : ∀ i : Fin 6, 0 ≤ (t.m i).opts.src ∧ (t.m i).opts.src < 6) (i : Fin 6) :
    (t.logic L).output_pose i =
      if (t.m i).opts.invert then -(t.postMap L i) else t.postMap L i := by
  obtain ⟨h1, h2⟩ := hsrc i
  rw [(logic_output L t).1]
  have hn : ¬ ((t.m i).opts.src < 0 ∨ (t.m i).opts.src ≥ 6) := by omega
  simp only [hn, if_false, Tracker.postCompensation, compensateStage, hc, Tracker.postFilter,
    hf, filterStage, invertLoop, Tracker.inverts, Bool.false_eq_true]
  split <;> simp

/-- C7 at a concrete input: channel 0 inverted, sample `(1,2,3,0,0,0)`. -/
theorem C7_invert_sign_law_witness :
    ((configured ![true, false, false, false, false, false] ![0, 1, 2, 3, 4, 5]
        ![1, 2, 3, 0, 0, 0] : Tracker ℝ).pFilter = none ∧
      (configured ![true, false, false, false, false, false] ![0, 1, 2, 3, 4, 5]
        ![1, 2, 3, 0, 0, 0] : Tracker ℝ).s.tcomp_p = false ∧
      ∀ i : Fin 6,
        0 ≤ ((configured ![true, false, false, false, false, false] ![0, 1, 2, 3, 4, 5]
          ![1, 2, 3, 0, 0, 0] : Tracker ℝ).m i).opts.src ∧
        ((configured ![true, false, false, false, false, false] ![0, 1, 2, 3, 4, 5]
          ![1, 2, 3, 0, 0, 0] : Tracker ℝ).m i).opts.src < 6) ∧
    (Tracker.logic realLibm
      (configured ![true, false, false, false, false, false] ![0, 1, 2, 3, 4, 5]
        ![1, 2, 3, 0, 0, 0])).output_pose 0
      = -(Tracker.postMap realLibm
        (configured ![true, false, false, false, false, false] ![0, 1, 2, 3, 4, 5]
          ![1, 2, 3, 0, 0, 0]) 0) :=
  ⟨⟨rfl, rfl, by decide⟩,
    C7_invert_sign_law realLibm
      (configured ![true, false, false, false, false, false] ![0, 1, 2, 3, 4, 5]
        ![1, 2, 3, 0, 0, 0]) rfl rfl (by decide) 0⟩

/-! ## C8: identity pass-through -/

/-- C8. In the calibration state as constructed (reference rotation the identity, reference
translation zero), no centre request pending and zero not engaged, with identity curves, zero
offsets, no invert, no filter, no compensation and source index `i` on channel `i`, `logic`
publishes and sends the sample unchanged, for every sample with yaw and roll strictly between
-180 and 180 degrees, pitch strictly between -90 and 90 degrees and a rotation outside the
gimbal band. -/
theorem C8_identity_pass_through (t : Tracker ℝ) (hP : t.Plain) (hc : t.centerp = false)
    (hz : t.zero_ = false) (hr : t.r_b = 1) (ht : ∀ i, t.t_b i = 0)
    (hy : -180 < t.newpose 3 ∧ t.newpose 3 < 180)
    (hp : -90 < t.newpose 4 ∧ t.newpose 4 < 90)
    (hro : -180 < t.newpose 5 ∧ t.newpose 5 < 180)
    (hb : |euler_to_rmat realLibm (rotPtr t.newpose) 0 2| ≤ 1 - 2e-4) :
    (t.logic realLibm).output_pose = t.newpose ∧
    (t.logic realLibm).sent = t.sent ++ [t.newpose] := by
  have hrt := rmat_to_euler_euler_to_rmat (rotPtr t.newpose) hy hp hro hb
  have hl : (t.load realLibm).1 = t.newpose := by simp [Tracker.load, hz]
  have hcen : t.center realLibm t.newpose = t := by simp [Tracker.center, hc]
  have pd : t.postDelta realLibm = t.newpose := by
    show (t.center realLibm (t.load realLibm).1).delta realLibm (t.load realLibm).1 = _
    rw [hl, hcen]
    unfold Tracker.delta
    simp only [hr, Matrix.transpose_one, mul_one]
    funext i
    fin_cases i
    · show t.newpose 0 - t.t_b 0 = t.newpose 0
      rw [ht, sub_zero]
    · show t.newpose 1 - t.t_b 1 = t.newpose 1
      rw [ht, sub_zero]
    · show t.newpose 2 - t.t_b 2 = t.newpose 2
      rw [ht, sub_zero]
    · exact congrFun hrt 0
    · exact congrFun hrt 1
    · exact congrFun hrt 2
  obtain ⟨o1, o2⟩ := logic_plain realLibm t hP
  rw [pd] at o1 o2
  exact ⟨o1, o2⟩

/-- C8 on the plain tracker as constructed: the sample `(10,0,0,0,0,0)` is published as
`(10,0,0,0,0,0)`, and the sample `(1,2,3,40,50,60)` as `(1,2,3,40,50,60)`. -/
theorem C8_identity_pass_through_witness :
    (Tracker.logic realLibm (plainSample ![10, 0, 0, 0, 0, 0])).output_pose
      = ![10, 0, 0, 0, 0, 0] ∧
    (Tracker.logic realLibm (plainSample ![10, 0, 0, 0, 0, 0])).sent
      = [![10, 0, 0, 0, 0, 0]] ∧
    |euler_to_rmat realLibm (rotPtr (![1, 2, 3, 40, 50, 60] : Pose ℝ)) 0 2| ≤ 1 - 2e-4 ∧
    (Tracker.logic realLibm (plainSample ![1, 2, 3, 40, 50, 60])).output_pose
      = ![1, 2, 3, 40, 50, 60] := by
  have p0 : ∀ a : Pose ℝ, (plainSample a : Tracker ℝ).Plain :=
    fun _ => ⟨rfl, rfl, fun i => ⟨rfl, rfl, rfl, fun _ => rfl, fun _ => rfl⟩⟩
  have t0 : ∀ (a : Pose ℝ) (i : Fin 3), (plainSample a : Tracker ℝ).t_b i = 0 := by
    intro a i; fin_cases i <;> rfl
  have hrot0 : rotPtr (![10, 0, 0, 0, 0, 0] : Pose ℝ) = fun _ => 0 := by
    funext i; fin_cases i <;> rfl
  have hrot1 : rotPtr (![1, 2, 3, 40, 50, 60] : Pose ℝ) = ![40, 50, 60] := by
    funext i; fin_cases i <;> rfl
  have b0 : |euler_to_rmat realLibm (rotPtr (![10, 0, 0, 0, 0, 0] : Pose ℝ)) 0 2|
      ≤ 1 - 2e-4 := by
    rw [hrot0, euler_to_rmat_zero]; simp; norm_num
  have b1 : |euler_to_rmat realLibm (rotPtr (![1, 2, 3, 40, 50, 60] : Pose ℝ)) 0 2|
      ≤ 1 - 2e-4 := by
    rw [hrot1]; exact band_40_50_60
  have h0 := C8_identity_pass_through (plainSample ![10, 0, 0, 0, 0, 0]) (p0 _) rfl rfl rfl
    (t0 _)
    (by show (-180 : ℝ) < 0 ∧ (0 : ℝ) < 180; norm_num)
    (by show (-90 : ℝ) < 0 ∧ (0 : ℝ) < 90; norm_num)
    (by show (-180 : ℝ) < 0 ∧ (0 : ℝ) < 180; norm_num) b0
  have h1 := C8_identity_pass_through (plainSample ![1, 2, 3, 40, 50, 60]) (p0 _) rfl rfl rfl
    (t0 _)
    (by show (-180 : ℝ) < 40 ∧ (40 : ℝ) < 180; norm_num)
    (by show (-90 : ℝ) < 50 ∧ (50 : ℝ) < 90; norm_num)
    (by show (-180 : ℝ) < 60 ∧ (60 : ℝ) < 180; norm_num) b1
  exact ⟨h0.1, h0.2, b1, h1.1⟩

/-! ## C9: the mapping stage -/

/-- C9. After `Tracker::map(pos, invert, axis)` the alternate curve is the active one exactly
when `(pos < 0) == !invert` and `axis.opts.altp` both hold, the other curve carries the
opposite flag, so exactly one of the two is active, and the value returned is `getValue(pos)`
of the active curve plus `axis.opts.zero`. The options and the curves themselves are left
as they were. -/
theorem C9_map_selects_curve (pos : α) (invertp : Bool) (axis : Mapping α) :
    ((Tracker.map pos invertp axis).2.curveAlt.trackingActive = true ↔
      ((pos < 0 ↔ invertp = false) ∧ axis.opts.altp = true)) ∧
    (Tracker.map pos invertp axis).2.curve.trackingActive
      = !(Tracker.map pos invertp axis).2.curveAlt.trackingActive ∧
    (Tracker.map pos invertp axis).1
      = (if (Tracker.map pos invertp axis).2.curveAlt.trackingActive
          then axis.curveAlt.getValue pos else axis.curve.getValue pos) + axis.opts.zero ∧
    (Tracker.map pos invertp axis).2.opts = axis.opts ∧
    (Tracker.map pos invertp axis).2.curve.getValue = axis.curve.getValue ∧
    (Tracker.map pos invertp axis).2.curveAlt.getValue = axis.curveAlt.getValue := by
  refine ⟨?_, rfl, ?_, rfl, rfl, rfl⟩
  · cases invertp <;> simp [Tracker.map, Map.setTrackingActive]
  · simp only [Tracker.map, Map.setTrackingActive]
    split <;> rfl

/-! ## C10: the Z bypass of translation compensation -/

/-- C10. For every matrix and every memory, with `xyz` and `output` any two pointers, equal
ones among them: `t_compensate` with `rz = true` leaves in `output[2]` the value that `xyz[2]`
held before the call, and in `output[0]` and `output[1]` what the call with `rz = false`
leaves there. In `logic`, where both pointers are the working pose, channel Z keeps its value
and channels X and Y are those of the call without bypass. -/
theorem C10_compensation_z_bypass (rmat : dmat 3 3 α) (mem : Mem α) (xyz output : ℕ)
    (L : Libm α) (value : Pose α) :
    Tracker.t_compensate rmat mem xyz output true (output + 2) = mem (xyz + 2) ∧
    Tracker.t_compensate rmat mem xyz output true (output + 0)
      = Tracker.t_compensate rmat mem xyz output false (output + 0) ∧
    Tracker.t_compensate rmat mem xyz output true (output + 1)
      = Tracker.t_compensate rmat mem xyz output false (output + 1) ∧
    compensateStage L { tcomp_p := true, tcomp_tz := true } value 2 = value 2 ∧
    compensateStage L { tcomp_p := true, tcomp_tz := true } value 0
      = compensateStage L { tcomp_p := true, tcomp_tz := false } value 0 ∧
    compensateStage L { tcomp_p := true, tcomp_tz := true } value 1
      = compensateStage L { tcomp_p := true, tcomp_tz := false } value 1 := by
  refine ⟨?_, ?_, ?_, ?_, ?_, ?_⟩ <;>
    simp [Tracker.t_compensate, Mem.write, compensateStage, Pose.ofMem, Pose.toMem]

/-! ## C11: centre is a one-shot and the only writer of the reference -/

/-- C11. Every cycle of `logic` ends with `centerp` clear. A cycle that starts with `centerp`
set ends with `t_b` the translation of the working pose and `r_b` the matrix `euler_to_rmat`
of its rotation. A cycle that starts with `centerp` clear leaves `r_b` and `t_b` as they were.
This holds for every sample, zero flag and configuration. -/
theorem C11_center_one_shot (L : Libm α) (t : Tracker α) :
    (t.logic L).centerp = false ∧
    (t.centerp = true →
      (t.logic L).t_b = (fun i => (t.load L).1 ⟨i.val, by have := i.isLt; omega⟩) ∧
      (t.logic L).r_b = euler_to_rmat L (rotPtr (t.load L).1)) ∧
    (t.centerp = false → (t.logic L).r_b = t.r_b ∧ (t.logic L).t_b = t.t_b) := by
  refine ⟨?_, fun h => ?_, fun h => ?_⟩
  · cases h : t.centerp
    · exact (logic_frame L t h).1
    · exact (logic_center L t h).1
  · exact ⟨(logic_center L t h).2.2, (logic_center L t h).2.1⟩
  · exact (logic_frame L t h).2

/-- C11 at concrete inputs: a pending centre request on the sample `(1,2,3,40,50,60)` stores
that sample as the reference, and the next cycle, on another sample, leaves it there. -/
theorem C11_center_one_shot_witness :
    (centredAt realLibm ![1, 2, 3, 40, 50, 60]).centerp = false ∧
    (centredAt realLibm ![1, 2, 3, 40, 50, 60]).t_b = ![1, 2, 3] ∧
    (centredAt realLibm ![1, 2, 3, 40, 50, 60]).r_b = euler_to_rmat realLibm ![40, 50, 60] ∧
    (Tracker.cycle realLibm (centredAt realLibm ![1, 2, 3, 40, 50, 60])
        ![7, 8, 9, 10, 11, 12]).r_b = euler_to_rmat realLibm ![40, 50, 60] ∧
    (Tracker.cycle realLibm (centredAt realLibm ![1, 2, 3, 40, 50, 60])
        ![7, 8, 9, 10, 11, 12]).t_b = ![1, 2, 3] := by
  have h1 := C11_center_one_shot realLibm (centreRequest ![1, 2, 3, 40, 50, 60])
  have hl : (Tracker.load realLibm (centreRequest ![1, 2, 3, 40, 50, 60] : Tracker ℝ)).1
      = ![1, 2, 3, 40, 50, 60] := rfl
  have ht : (centredAt realLibm (![1, 2, 3, 40, 50, 60] : Pose ℝ)).t_b = ![1, 2, 3] := by
    rw [centredAt, (h1.2.1 rfl).1, hl]
    funext i; fin_cases i <;> rfl
  have hr : (centredAt realLibm (![1, 2, 3, 40, 50, 60] : Pose ℝ)).r_b
      = euler_to_rmat realLibm ![40, 50, 60] := by
    rw [centredAt, (h1.2.1 rfl).2, hl]
    congr 1
  have h2 := (C11_center_one_shot realLibm
    { centredAt realLibm (![1, 2, 3, 40, 50, 60] : Pose ℝ) with
      newpose := fun i => (![7, 8, 9, 10, 11, 12] : Pose ℝ) i }).2.2 h1.1
  have hcy : Tracker.cycle realLibm (centredAt realLibm (![1, 2, 3, 40, 50, 60] : Pose ℝ))
      ![7, 8, 9, 10, 11, 12]
      = Tracker.logic realLibm
        { centredAt realLibm (![1, 2, 3, 40, 50, 60] : Pose ℝ) with
          newpose := fun i => (![7, 8, 9, 10, 11, 12] : Pose ℝ) i } := by
    have he : (centredAt realLibm (![1, 2, 3, 40, 50, 60] : Pose ℝ)).enabledp = true :=
      (logic_config realLibm _).2.1
    simp [Tracker.cycle, he]
  exact ⟨h1.1, ht, hr, by rw [hcy, h2.1]; exact hr, by rw [hcy, h2.2]; exact ht⟩

/-! ## C12: the shutdown pass -/

/-- C12 fails as stated, for the calibration state and for the mapping configuration. On the
plain tracker centred at `(10,0,0,0,0,0)`, zero not engaged, the pose that the shutdown pass
hands to the filter stage is `(-10,0,0,0,0,0)`, and that is the pose the pass sends before
the origin pose. On the tracker as constructed with the zero offset `5` on every channel the
pose handed to the filter stage is `(5,5,5,5,5,5)`. -/
theorem C12_shutdown_pass_counterexample :
    ((centredAt realLibm ![10, 0, 0, 0, 0, 0]).zero_ = false ∧
      Tracker.postMap realLibm (centredAt realLibm ![10, 0, 0, 0, 0, 0]).originSample
        = ![-10, 0, 0, 0, 0, 0] ∧
      Tracker.postMap realLibm (centredAt realLibm ![10, 0, 0, 0, 0, 0]).originSample ≠ 0 ∧
      (Tracker.shutdown realLibm (centredAt realLibm ![10, 0, 0, 0, 0, 0])).sent
        = [0, ![-10, 0, 0, 0, 0, 0], 0]) ∧
    (Tracker.postMap realLibm (offsetTracker 5 : Tracker ℝ).originSample = (fun _ => 5) ∧
      Tracker.postMap realLibm (offsetTracker 5 : Tracker ℝ).originSample ≠ 0) := by
  obtain ⟨c1, g1, c2, c3, q1, s1⟩ := centredAt_reference ![10, 0, 0, 0, 0, 0]
  have hrot : rotPtr (![10, 0, 0, 0, 0, 0] : Pose ℝ) = fun _ => 0 := by
    funext i; fin_cases i <;> rfl
  rw [hrot, euler_to_rmat_zero] at c2
  have hoff : Tracker.postMap realLibm (offsetTracker 5 : Tracker ℝ).originSample
      = (fun _ => 5) := by
    have pd0 : (offsetTracker 5 : Tracker ℝ).originSample.postDelta realLibm = 0 := by
      rw [postDelta_originSample (offsetTracker 5 : Tracker ℝ) rfl rfl]
      have hr : (offsetTracker 5 : Tracker ℝ).r_b = 1 := rfl
      rw [hr, Matrix.transpose_one, rmat_to_euler_one]
      funext i
      fin_cases i
      all_goals simp [offsetTracker, plainTracker, Tracker.init]
    funext i
    show (Tracker.map ((offsetTracker 5 : Tracker ℝ).originSample.postDelta realLibm i)
      ((offsetTracker 5 : Tracker ℝ).originSample.inverts i)
      ((offsetTracker 5 : Tracker ℝ).originSample.m i)).1 = 5
    rw [pd0]
    simp [Tracker.map, Tracker.inverts, Tracker.originSample, offsetTracker, plainTracker,
      Tracker.init, plainMapping, Map.setTrackingActive]
  generalize hu : centredAt realLibm (![10, 0, 0, 0, 0, 0] : Pose ℝ) = u at c1 g1 c2 c3 q1 s1
  have pd : u.originSample.postDelta realLibm = ![-10, 0, 0, 0, 0, 0] := by
    rw [postDelta_originSample u c1 g1, c2, Matrix.transpose_one, rmat_to_euler_one, c3]
    funext i
    fin_cases i
    all_goals simp
    all_goals rfl
  have q2 : u.originSample.Plain := q1
  have pm : u.originSample.postMap realLibm = ![-10, 0, 0, 0, 0, 0] := by
    rw [postMap_of_identity realLibm _ (fun i => ⟨(q2.2.2 i).2.1, (q2.2.2 i).2.2.2.1,
      (q2.2.2 i).2.2.2.2⟩), pd]
  refine ⟨⟨g1, pm, ?_, ?_⟩, hoff, ?_⟩
  · rw [pm]
    intro h
    have := congrFun h 0
    norm_num at this
  · have := (logic_plain realLibm u.originSample q2).2
    rw [pd] at this
    simp only [Tracker.shutdown, this]
    show u.sent ++ [![-10, 0, 0, 0, 0, 0]] ++ [Pose.ctor] = _
    rw [s1]
    rfl
  · rw [hoff]
    intro h
    have := congrFun h 0
    norm_num at this

/-- C12 as amended, for every zero flag. The shutdown pass is `logic` on the origin sample,
run as on any other cycle. With zero not engaged the working pose of the pass is all-zero;
with zero engaged it is the stored reference, as on every cycle. With zero not engaged and
no centre request pending the post-delta pose is the reference translation negated and the
angles of the transposed reference rotation. Whenever a centre request is pending, or the
reference is the one the tracker was constructed with, or zero is engaged and the reference
rotation is the matrix of some angles outside the gimbal band, the post-delta pose is
all-zero and the pose handed to the filter is what `map` returns for `0` on each channel:
all-zero with identity curves and zero offsets. -/
theorem C12_shutdown_pass_amended (t : Tracker ℝ) :
    (t.zero_ = false → (t.originSample.load realLibm).1 = (fun _ => 0)) ∧
    (t.zero_ = true →
      (∀ i : Fin 3,
        (t.originSample.load realLibm).1 ⟨i.val, by have := i.isLt; omega⟩ = t.t_b i) ∧
      rotPtr (t.originSample.load realLibm).1
        = (fun i => rmat_to_euler realLibm t.r_b i 0 * r2d)) ∧
    (t.zero_ = false → t.centerp = false →
      t.originSample.postDelta realLibm =
        fun i => if h : i.val < 3 then -t.t_b ⟨i.val, h⟩
          else rmat_to_euler realLibm t.r_b.transpose
            ⟨i.val - 3, by have := i.isLt; omega⟩ 0 * r2d) ∧
    ((t.centerp = true ∨ (t.r_b = 1 ∧ ∀ i, t.t_b i = 0) ∨
        (t.zero_ = true ∧ |t.r_b 0 2| ≤ 1 - 2e-4 ∧ ∃ a, t.r_b = euler_to_rmat realLibm a)) →
      t.originSample.postDelta realLibm = 0 ∧
      t.originSample.postMap realLibm = (fun i => (Tracker.map 0 (t.inverts i) (t.m i)).1) ∧
      ((∀ i : Fin 6, (t.m i).opts.zero = 0 ∧ (∀ x, (t.m i).curve.getValue x = x) ∧
          (∀ x, (t.m i).curveAlt.getValue x = x)) →
        t.originSample.postMap realLibm = 0)) := by
  refine ⟨fun hz => by simp [Tracker.load, Tracker.originSample, hz],
    fun hz => ?_, fun hz hc => postDelta_originSample t hc hz, fun href => ?_⟩
  · obtain ⟨l1, l2, -⟩ := load_zero realLibm t.originSample hz
    exact ⟨l1, l2⟩
  suffices hpd : t.originSample.postDelta realLibm = 0 by
    refine ⟨hpd, ?_, fun hm => ?_⟩
    · show mapLoop t.m t.inverts (t.originSample.postDelta realLibm) = _
      rw [hpd]
      rfl
    · rw [postMap_of_identity realLibm t.originSample hm, hpd]
  by_cases hc : t.centerp = true
  · exact postDelta_centering t.originSample hc
  · rcases href with h | ⟨h1, h2⟩ | ⟨hz, hb, a, hr⟩
    · exact absurd h hc
    · cases hz : t.zero_
      · rw [postDelta_originSample t (by simpa using hc) hz, h1, Matrix.transpose_one,
          rmat_to_euler_one]
        funext i
        split
        · simp [h2]
        · simp
      · have hb : |t.originSample.r_b 0 2| ≤ 1 - 2e-4 := by
          show |t.r_b 0 2| ≤ 1 - 2e-4
          rw [h1]; simp; norm_num
        exact postDelta_zero_engaged t.originSample (fun _ => 0) hz
          (h1.trans euler_to_rmat_zero.symm) hb
    · exact postDelta_zero_engaged t.originSample a hz hr hb

/-- C12 as amended, on the plain tracker centred on the sample `(1,2,3,40,50,60)` with zero
engaged, and on the plain tracker centred on `(10,0,0,0,0,0)` with a new centre request
pending: the pose handed to the filter in the shutdown pass is all-zero. -/
theorem C12_shutdown_pass_amended_witness :
    Tracker.postMap realLibm
      ({ centredAt realLibm ![1, 2, 3, 40, 50, 60] with zero_ := true }
        : Tracker ℝ).originSample = 0 ∧
    Tracker.postMap realLibm
      ({ centredAt realLibm ![10, 0, 0, 0, 0, 0] with centerp := true }
        : Tracker ℝ).originSample = 0 := by
  obtain ⟨-, -, c2, -, c4, -⟩ := centredAt_reference ![1, 2, 3, 40, 50, 60]
  obtain ⟨-, -, -, -, d4, -⟩ := centredAt_reference ![10, 0, 0, 0, 0, 0]
  have hrot : rotPtr (![1, 2, 3, 40, 50, 60] : Pose ℝ) = ![40, 50, 60] := by
    funext i; fin_cases i <;> rfl
  rw [hrot] at c2
  have hb : |({ centredAt realLibm ![1, 2, 3, 40, 50, 60] with zero_ := true }
      : Tracker ℝ).r_b 0 2| ≤ 1 - 2e-4 := by
    show |(centredAt realLibm ![1, 2, 3, 40, 50, 60]).r_b 0 2| ≤ _
    rw [c2]; exact band_40_50_60
  exact ⟨((C12_shutdown_pass_amended
      ({ centredAt realLibm ![1, 2, 3, 40, 50, 60] with zero_ := true } : Tracker ℝ)).2.2.2
      (Or.inr (Or.inr ⟨rfl, hb, ![40, 50, 60], c2⟩))).2.2
      (fun i => ⟨(c4.2.2 i).2.1, (c4.2.2 i).2.2.2.1, (c4.2.2 i).2.2.2.2⟩),
    ((C12_shutdown_pass_amended
      ({ centredAt realLibm ![10, 0, 0, 0, 0, 0] with centerp := true } : Tracker ℝ)).2.2.2
      (Or.inl rfl)).2.2
      (fun i => ⟨(d4.2.2 i).2.1, (d4.2.2 i).2.2.2.1, (d4.2.2 i).2.2.2.2⟩)⟩

/-! ## C14: the gimbal band policy -/

/-- C14. For every matrix `R` with `|R(0,2)| > 1 - 2e-4`, `rmat_to_euler` returns yaw `0`, as
roll the value of the expression `atan(R(1,0)/R(2,0))` and a pitch that is `90` in magnitude
once taken to degrees with `r2d`. For every `R` with `|R(0,2)| ≤ 1 - 2e-4`, the threshold
included, it returns `(atan2(R(0,1),R(0,0)), asin(-R(0,2)), atan2(R(1,2),R(2,2)))`. Over the
reals the roll in the band is the arctangent of the quotient wherever `R(2,0)` is not zero. -/
theorem C14_gimbal_band_policy (L : Libm α) (R : dmat 3 3 α) :
    (|R 0 2| > 1 - 2e-4 →
      rmat_to_euler L R 0 0 = 0 ∧ rmat_to_euler L R 2 0 = L.atan_div (R 1 0) (R 2 0) ∧
      |rmat_to_euler L R 1 0 * r2d| = 90) ∧
    (|R 0 2| ≤ 1 - 2e-4 →
      rmat_to_euler L R
        = !![L.atan2 (R 0 1) (R 0 0); L.asin (-R 0 2); L.atan2 (R 1 2) (R 2 2)]) ∧
    (∀ Q : dmat 3 3 ℝ, |Q 0 2| > 1 - 2e-4 → Q 2 0 ≠ 0 →
      rmat_to_euler realLibm Q 2 0 = Real.arctan (Q 1 0 / Q 2 0)) := by
  have hb : (0 : α) < 1 - 2e-4 := by norm_num
  have h90 : (90 : α) * pi / 180 * r2d = 90 := r2d_mul_field 90
  refine ⟨?_, ?_, ?_⟩
  · intro h
    rcases lt_abs.mp h with h1 | h1
    · rw [rmat_to_euler_hi L R h1]
      refine ⟨rfl, rfl, ?_⟩
      show |(90 : α) * pi / 180 * r2d| = 90
      rw [h90]; exact abs_of_pos (by norm_num)
    · have h2 : R 0 2 < -(1 - 2e-4) := by linarith
      have h3 : ¬ R 0 2 > 1 - 2e-4 := by intro h4; linarith
      rw [rmat_to_euler_lo L R h3 h2]
      refine ⟨rfl, rfl, ?_⟩
      show |-((90 : α) * pi / 180) * r2d| = 90
      rw [neg_mul, h90, abs_neg]; exact abs_of_pos (by norm_num)
  · intro h
    obtain ⟨h1, h2⟩ := abs_le.mp h
    exact rmat_to_euler_mid L R h2 h1
  · intro Q h hQ
    have hbr : (0 : ℝ) < 1 - 2e-4 := by norm_num
    rcases lt_abs.mp h with h1 | h1
    · rw [rmat_to_euler_hi realLibm Q h1]
      exact realLibm_atan_div _ hQ
    · have h2 : Q 0 2 < -(1 - 2e-4) := by linarith
      have h3 : ¬ Q 0 2 > 1 - 2e-4 := by intro h4; linarith
      rw [rmat_to_euler_lo realLibm Q h3 h2]
      exact realLibm_atan_div _ hQ

/-- C14 at concrete matrices: the quarter turn with `R(0,2) = 1` lies in the band, the
identity outside it. -/
theorem C14_gimbal_band_policy_witness :
    (|(!![0, 0, 1; 0, 1, 0; -1, 0, 0] : dmat 3 3 ℝ) 0 2| > 1 - 2e-4 ∧
      |rmat_to_euler realLibm !![0, 0, 1; 0, 1, 0; -1, 0, 0] 1 0 * r2d| = 90 ∧
      rmat_to_euler realLibm !![0, 0, 1; 0, 1, 0; -1, 0, 0] 2 0 = 0) ∧
    (|(1 : dmat 3 3 ℝ) 0 2| ≤ 1 - 2e-4 ∧
      rmat_to_euler realLibm 1
        = !![realLibm.atan2 ((1 : dmat 3 3 ℝ) 0 1) ((1 : dmat 3 3 ℝ) 0 0);
             realLibm.asin (-(1 : dmat 3 3 ℝ) 0 2);
             realLibm.atan2 ((1 : dmat 3 3 ℝ) 1 2) ((1 : dmat 3 3 ℝ) 2 2)]) := by
  have hq : |(!![0, 0, 1; 0, 1, 0; -1, 0, 0] : dmat 3 3 ℝ) 0 2| > 1 - 2e-4 := by
    simp; norm_num
  have hroll := (C14_gimbal_band_policy realLibm !![0, 0, 1; 0, 1, 0; -1, 0, 0]).2.2
    !![0, 0, 1; 0, 1, 0; -1, 0, 0] hq (by simp)
  refine ⟨⟨hq, ((C14_gimbal_band_policy realLibm !![0, 0, 1; 0, 1, 0; -1, 0, 0]).1 hq).2.2,
      ?_⟩,
    ⟨by simp; norm_num, (C14_gimbal_band_policy realLibm 1).2.1 (by simp; norm_num)⟩⟩
  rw [hroll]
  simp

/-! ## C15: the reference rotation stays orthonormal -/

/-- C15. For all real angles `euler_to_rmat` is orthonormal: the matrix times its transpose
is the identity and its determinant is `1`. Hence in every state reachable from the tracker
as constructed through calls of `logic`, whatever the other threads change in between, the
reference rotation `r_b` times its transpose is the identity. -/
theorem C15_reference_orthonormal :
    (∀ v : Fin 3 → ℝ,
      euler_to_rmat realLibm v * (euler_to_rmat realLibm v).transpose = 1 ∧
      (euler_to_rmat realLibm v).det = 1) ∧
    (∀ t : Tracker ℝ, Reachable realLibm t → t.r_b * t.r_b.transpose = 1) :=
  ⟨fun v => ⟨euler_to_rmat_mul_transpose v, euler_to_rmat_det v⟩, reachable_orthonormal⟩

/-- C15 on a reachable state: the plain tracker centred on `(1,2,3,40,50,60)` and run for
one more cycle. -/
theorem C15_reference_orthonormal_witness :
    Reachable realLibm
      (Tracker.cycle realLibm (centredAt realLibm ![1, 2, 3, 40, 50, 60])
        ![7, 8, 9, 10, 11, 12]) ∧
    (Tracker.cycle realLibm (centredAt realLibm ![1, 2, 3, 40, 50, 60])
        ![7, 8, 9, 10, 11, 12]).r_b *
      (Tracker.cycle realLibm (centredAt realLibm ![1, 2, 3, 40, 50, 60])
        ![7, 8, 9, 10, 11, 12]).r_b.transpose = 1 :=
  have hreach : Reachable realLibm
      (Tracker.cycle realLibm (centredAt realLibm ![1, 2, 3, 40, 50, 60])
        ![7, 8, 9, 10, 11, 12]) := by
    have h0 : Reachable realLibm (centredAt realLibm (![1, 2, 3, 40, 50, 60] : Pose ℝ)) :=
      Reachable.logic plainTracker (centreRequest ![1, 2, 3, 40, 50, 60])
        (Reachable.init _ _ _) rfl rfl
    unfold Tracker.cycle
    split
    · exact Reachable.logic _ _ h0 rfl rfl
    · exact Reachable.logic _ _ h0 rfl rfl
  ⟨hreach, C15_reference_orthonormal.2 _ hreach⟩

/-! ## C16: zero ignores the live sample -/

/-- C16. With `zero_` engaged, two calls of `logic` from states that differ in `newpose` only
send the same pose, publish the same mapped and raw pose and end with the same reference,
centre flag and mappings. The raw pose published is the stored reference, `t_b` and the
angles `rmat_to_euler r_b` in degrees, not the sample. -/
theorem C16_zero_ignores_sample (L : Libm α) (t : Tracker α) (p q : Pose α)
    (hz : t.zero_ = true) :
    (Tracker.logic L { t with newpose := p }).sent
      = (Tracker.logic L { t with newpose := q }).sent ∧
    (Tracker.logic L { t with newpose := p }).output_pose
      = (Tracker.logic L { t with newpose := q }).output_pose ∧
    (Tracker.logic L { t with newpose := p }).raw_6dof
      = (Tracker.logic L { t with newpose := q }).raw_6dof ∧
    (Tracker.logic L { t with newpose := p }).r_b
      = (Tracker.logic L { t with newpose := q }).r_b ∧
    (Tracker.logic L { t with newpose := p }).t_b
      = (Tracker.logic L { t with newpose := q }).t_b ∧
    (Tracker.logic L { t with newpose := p }).centerp
      = (Tracker.logic L { t with newpose := q }).centerp ∧
    (Tracker.logic L { t with newpose := p }).m
      = (Tracker.logic L { t with newpose := q }).m ∧
    (Tracker.logic L { t with newpose := p }).raw_6dof
      = (fun i => if h : i.val < 3 then t.t_b ⟨i.val, h⟩
          else rmat_to_euler L t.r_b ⟨i.val - 3, by have := i.isLt; omega⟩ 0 * r2d) := by
  have key : ∀ a : Pose α, Tracker.logic L { t with newpose := a }
      = { Tracker.logic L t with newpose := a } := by
    intro a
    rcases t with ⟨s, m, np, cp, en, z, sq, pf, sent, rb, tb, op, raw⟩
    dsimp only at hz
    subst hz
    cases cp <;> rfl
  rw [key p, key q]
  refine ⟨rfl, rfl, rfl, rfl, rfl, rfl, rfl, ?_⟩
  simp [Tracker.logic, Tracker.load, hz]

/-- C16 at a concrete input: the plain tracker centred on `(1,2,3,0,0,0)`, zero engaged, on
the samples `(7,8,9,10,11,12)` and `(0,0,0,0,0,0)`. -/
theorem C16_zero_ignores_sample_witness :
    ({ centredAt realLibm ![1, 2, 3, 0, 0, 0] with zero_ := true } : Tracker ℝ).zero_ = true ∧
    (Tracker.logic realLibm
      { ({ centredAt realLibm ![1, 2, 3, 0, 0, 0] with zero_ := true } : Tracker ℝ) with
        newpose := ![7, 8, 9, 10, 11, 12] }).output_pose
      = (Tracker.logic realLibm
        { ({ centredAt realLibm ![1, 2, 3, 0, 0, 0] with zero_ := true } : Tracker ℝ) with
          newpose := 0 }).output_pose :=
  ⟨rfl,
    (C16_zero_ignores_sample realLibm
      ({ centredAt realLibm ![1, 2, 3, 0, 0, 0] with zero_ := true } : Tracker ℝ)
      ![7, 8, 9, 10, 11, 12] 0 rfl).2.1⟩

/-! ## C17: the sign of the saturated pitch -/

/-- C17, evaluated. For every matrix above the band, `R(0,2) > 1 - 2e-4`, `rmat_to_euler`
returns a positive pitch while `asin(-R(0,2))`, the pitch of the general formula, is negative;
for every matrix below the band it returns a negative pitch while `asin(-R(0,2))` is positive.
The matrix of the angles `(0, 90, 0)` is below the band. -/
theorem C17_saturated_pitch_has_opposite_sign :
    (∀ R : dmat 3 3 ℝ, R 0 2 > 1 - 2e-4 →
      0 < rmat_to_euler realLibm R 1 0 ∧ realLibm.asin (-R 0 2) < 0) ∧
    (∀ R : dmat 3 3 ℝ, R 0 2 < -(1 - 2e-4) →
      rmat_to_euler realLibm R 1 0 < 0 ∧ 0 < realLibm.asin (-R 0 2)) ∧
    (euler_to_rmat realLibm ![0, 90, 0] 0 2 < -(1 - 2e-4) ∧
      rmat_to_euler realLibm (euler_to_rmat realLibm ![0, 90, 0]) 1 0 < 0 ∧
      0 < realLibm.asin (-euler_to_rmat realLibm ![0, 90, 0] 0 2)) := by
  have hup : (0 : ℝ) < 90 * pi / 180 := by unfold pi; norm_num
  have below : ∀ R : dmat 3 3 ℝ, R 0 2 < -(1 - 2e-4) →
      rmat_to_euler realLibm R 1 0 < 0 ∧ 0 < realLibm.asin (-R 0 2) := by
    intro R h
    have h1 : ¬ R 0 2 > 1 - 2e-4 := by intro h2; norm_num at h h2; linarith
    rw [rmat_to_euler_lo _ R h1 h, realLibm_asin, Real.arcsin_neg]
    refine ⟨by show -(90 * pi / 180) < (0 : ℝ); linarith, ?_⟩
    have : Real.arcsin (R 0 2) < 0 := Real.arcsin_lt_zero.mpr (by norm_num at h ⊢; linarith)
    linarith
  refine ⟨?_, below, (pitch_ninety 0 0).1, below _ (pitch_ninety 0 0).1⟩
  intro R h
  rw [rmat_to_euler_hi _ R h, realLibm_asin, Real.arcsin_neg]
  refine ⟨hup, ?_⟩
  have : 0 < Real.arcsin (R 0 2) := Real.arcsin_pos.mpr (by norm_num at h ⊢; linarith)
  linarith

/-! ## C18: compensation preserves length -/

/-- C18. For all real angles and every translation, `t_compensate` with the matrix
`euler_to_rmat` of the angles and `rz = false` leaves in `output` a vector whose squares sum
to those of `xyz` before the call, wherever the two pointers point. -/
theorem C18_compensation_preserves_length (v : Fin 3 → ℝ) (mem : Mem ℝ) (xyz output : ℕ) :
    Tracker.t_compensate (euler_to_rmat realLibm v) mem xyz output false (output + 0) ^ 2
      + Tracker.t_compensate (euler_to_rmat realLibm v) mem xyz output false (output + 1) ^ 2
      + Tracker.t_compensate (euler_to_rmat realLibm v) mem xyz output false (output + 2) ^ 2
      = mem (xyz + 0) ^ 2 + mem (xyz + 1) ^ 2 + mem (xyz + 2) ^ 2 := by
  have h1 := Real.sin_sq_add_cos_sq (v 0 * pi / 180)
  have h2 := Real.sin_sq_add_cos_sq (v 1 * pi / 180)
  have h3 := Real.sin_sq_add_cos_sq (v 2 * pi / 180)
  simp only [Tracker.t_compensate, Bool.not_false, if_true, Mem.write, Matrix.mul_apply,
    Fin.sum_univ_three, col_apply, euler_to_rmat_eq, realLibm_sin, realLibm_cos]
  generalize Real.sin (v 0 * pi / 180) = s1 at h1 ⊢
  generalize Real.cos (v 0 * pi / 180) = c1 at h1 ⊢
  generalize Real.sin (v 1 * pi / 180) = s2 at h2 ⊢
  generalize Real.cos (v 1 * pi / 180) = c2 at h2 ⊢
  generalize Real.sin (v 2 * pi / 180) = s3 at h3 ⊢
  generalize Real.cos (v 2 * pi / 180) = c3 at h3 ⊢
  simp
  generalize mem xyz = x
  generalize mem (xyz + 1) = y
  generalize mem (xyz + 2) = z
  linear_combination
    (s2 ^ 2 * s3 ^ 2 * x ^ 2 + s2 ^ 2 * c3 ^ 2 * x ^ 2 + c2 ^ 2 * x ^ 2 + s3 ^ 2 * z ^ 2
        + c3 ^ 2 * z ^ 2) * h1
      + (-2 * s1 * c1 * s3 ^ 2 * x * z - 2 * s1 * c1 * c3 ^ 2 * x * z - c1 ^ 2 * s3 ^ 2 * x ^ 2
        + c1 ^ 2 * s3 ^ 2 * z ^ 2 - c1 ^ 2 * c3 ^ 2 * x ^ 2 + c1 ^ 2 * c3 ^ 2 * z ^ 2
        + s3 ^ 2 * x ^ 2 + c3 ^ 2 * x ^ 2 + y ^ 2) * h2
      + (2 * s1 * c1 * c2 ^ 2 * x * z + 2 * s1 * s2 * c2 * x * y + c1 ^ 2 * c2 ^ 2 * x ^ 2
        - c1 ^ 2 * c2 ^ 2 * z ^ 2 - 2 * c1 * s2 * c2 * y * z - c2 ^ 2 * x ^ 2 + c2 ^ 2 * y ^ 2
        + x ^ 2 + z ^ 2) * h3

/-! ## C19: compensation at zero rotation -/

/-- C19. With the matrix of the angles `(0, 0, 0)`, `t_compensate` leaves in `output` the
three values that `xyz` held before the call, for both values of `rz` and wherever the two
pointers point. So when the rotation channels of the pose after the inversion loop are all
`0`, the compensation stage returns the pose it was given and `logic` publishes the same
pose with compensation enabled as with compensation disabled. -/
theorem C19_compensation_identity_at_zero (t : Tracker ℝ)
    (h : rotPtr (invertLoop t.inverts (t.postFilter realLibm)) = fun _ => 0) :
    (∀ (mem : Mem ℝ) (xyz output : ℕ) (rz : Bool),
      Tracker.t_compensate (euler_to_rmat realLibm fun _ => 0) mem xyz output rz (output + 0)
        = mem (xyz + 0) ∧
      Tracker.t_compensate (euler_to_rmat realLibm fun _ => 0) mem xyz output rz (output + 1)
        = mem (xyz + 1) ∧
      Tracker.t_compensate (euler_to_rmat realLibm fun _ => 0) mem xyz output rz (output + 2)
        = mem (xyz + 2)) ∧
    (∀ s : main_settings,
      compensateStage realLibm s (invertLoop t.inverts (t.postFilter realLibm))
        = invertLoop t.inverts (t.postFilter realLibm)) ∧
    (∀ rz : Bool,
      (Tracker.logic realLibm { t with s := { tcomp_p := true, tcomp_tz := rz } }).output_pose
        = (Tracker.logic realLibm
            { t with s := { tcomp_p := false, tcomp_tz := rz } }).output_pose) := by
  have hmemo : ∀ (mem : Mem ℝ) (xyz output : ℕ) (rz : Bool),
      Tracker.t_compensate (euler_to_rmat realLibm fun _ => 0) mem xyz output rz (output + 0)
        = mem (xyz + 0) ∧
      Tracker.t_compensate (euler_to_rmat realLibm fun _ => 0) mem xyz output rz (output + 1)
        = mem (xyz + 1) ∧
      Tracker.t_compensate (euler_to_rmat realLibm fun _ => 0) mem xyz output rz (output + 2)
        = mem (xyz + 2) := by
    intro mem xyz output rz
    rw [euler_to_rmat_zero]
    cases rz <;>
      simp [Tracker.t_compensate, Mem.write, Matrix.mul_apply, Fin.sum_univ_three, col_apply,
        Matrix.one_apply]
  have hstage : ∀ s : main_settings,
      compensateStage realLibm s (invertLoop t.inverts (t.postFilter realLibm))
        = invertLoop t.inverts (t.postFilter realLibm) := by
    intro s
    unfold compensateStage
    split
    · rw [h]
      funext i
      obtain ⟨m0, m1, m2⟩ := hmemo (Pose.toMem (invertLoop t.inverts (t.postFilter realLibm)))
        0 0 s.tcomp_tz
      fin_cases i
      · simpa [Pose.ofMem, Pose.toMem] using m0
      · simpa [Pose.ofMem, Pose.toMem] using m1
      · simpa [Pose.ofMem, Pose.toMem] using m2
      · cases s.tcomp_tz <;> simp [Pose.ofMem, Tracker.t_compensate, Mem.write, Pose.toMem]
      · cases s.tcomp_tz <;> simp [Pose.ofMem, Tracker.t_compensate, Mem.write, Pose.toMem]
      · cases s.tcomp_tz <;> simp [Pose.ofMem, Tracker.t_compensate, Mem.write, Pose.toMem]
    · rfl
  refine ⟨hmemo, hstage, fun rz => ?_⟩
  have e : ∀ s0 : main_settings, Tracker.postCompensation realLibm { t with s := s0 }
      = compensateStage realLibm s0 (invertLoop t.inverts (t.postFilter realLibm)) :=
    by
    intro s0
    clear h hstage
    rcases t with ⟨s, m, np, cp, en, z, sq, pf, sent, rb, tb, op, raw⟩
    cases cp <;> cases z <;> rfl
  have o1 := (logic_output realLibm { t with s := { tcomp_p := true, tcomp_tz := rz } }).1
  have o2 := (logic_output realLibm { t with s := { tcomp_p := false, tcomp_tz := rz } }).1
  rw [o1, o2, e, e, hstage, hstage]

/-- C19 at a concrete input: the plain tracker on the sample `(1,2,3,0,0,0)`. -/
theorem C19_compensation_identity_at_zero_witness :
    rotPtr (invertLoop (plainSample ![1, 2, 3, 0, 0, 0] : Tracker ℝ).inverts
        (Tracker.postFilter realLibm (plainSample ![1, 2, 3, 0, 0, 0])))
      = (fun _ => 0) ∧
    (Tracker.logic realLibm
        { (plainSample ![1, 2, 3, 0, 0, 0] : Tracker ℝ)
          with s := { tcomp_p := true, tcomp_tz := false } }).output_pose
      = (Tracker.logic realLibm
        { (plainSample ![1, 2, 3, 0, 0, 0] : Tracker ℝ)
          with s := { tcomp_p := false, tcomp_tz := false } }).output_pose :=
  have h : rotPtr (invertLoop (plainSample ![1, 2, 3, 0, 0, 0] : Tracker ℝ).inverts
        (Tracker.postFilter realLibm (plainSample ![1, 2, 3, 0, 0, 0])))
      = (fun _ => 0) := by
    rw [plain_rotation_free]
    funext i; fin_cases i <;> rfl
  ⟨h, (C19_compensation_identity_at_zero (plainSample ![1, 2, 3, 0, 0, 0]) h).2.2 false⟩

/-! ## C20: the last delivery on shutdown -/

/-- C20. What `run` does once it has left its loop, for every state, filter, reference and
mapping configuration: it sends the pose of the shutdown pass of `logic` and after it the
default-constructed pose, which is all-zero, so the last pose sent is the all-zero pose; and
it ends with both curves of all six channels marked inactive. The same holds for `run` as a
whole, whatever passes came before. -/
theorem C20_last_delivery (L : Libm α) (t : Tracker α) (es : List (LoopEnv α)) :
    (t.shutdown L).sent
      = t.sent ++ [(Tracker.logic L t.originSample).output_pose, fun _ => 0] ∧
    (t.shutdown L).sent.getLast? = some (fun _ => 0) ∧
    (∀ i : Fin 6, ((t.shutdown L).m i).curve.trackingActive = false ∧
      ((t.shutdown L).m i).curveAlt.trackingActive = false) ∧
    (t.run L es).sent.getLast? = some (fun _ => 0) ∧
    (∀ i : Fin 6, ((t.run L es).m i).curve.trackingActive = false ∧
      ((t.run L es).m i).curveAlt.trackingActive = false) := by
  have hs : ∀ u : Tracker α, (u.shutdown L).sent
      = u.sent ++ [(Tracker.logic L u.originSample).output_pose, fun _ => 0] := by
    intro u
    have h2 := (logic_output L u.originSample).2
    simp only [Tracker.shutdown, h2]
    simp only [Tracker.originSample, List.append_assoc, List.singleton_append]
    rfl
  have hl : ∀ u : Tracker α, (u.shutdown L).sent.getLast? = some (fun _ => 0) := by
    intro u
    rw [hs u]
    simp
  have hm : ∀ (u : Tracker α) (i : Fin 6),
      ((u.shutdown L).m i).curve.trackingActive = false ∧
      ((u.shutdown L).m i).curveAlt.trackingActive = false :=
    fun u i => ⟨rfl, rfl⟩
  exact ⟨hs t, hl t, hm t, hl _, hm _⟩

end Opentrack
